import Mathlib

/-!
Verification of the speculative-to-baseline state-reconciliation engine of
`src/dfg/DFGJITCompiler.cpp`.

The development shallowly embeds the two exit-emission paths of the source:

* `exitSpeculativeWithOSR` (OSR exit emitter, lines 104-453), and
* `jumpFromSpeculativeToNonSpeculative` together with `GeneralizedRegister`,
  `ShuffledRegister` and `NodeToRegisterMap` (bridging variant, lines 473-1180).

Machine code is embedded as a list of abstract Emitter operations (`Instr`),
mirroring the macro-assembler calls the source makes; a small-step interpreter
(`stepI` / `runI`) gives those operations bit-level semantics on a machine
state of 64-bit words, following the Emitter contract of the specification
(§3, §6).  Registers are identified by their allocator index
(`GPRInfo::toRegister`/`toIndex` and `FPRInfo::toRegister`/`toIndex` are then
the identity), which is faithful because the source only ever converts
index → register → index.
-/

namespace JSCDFG

/-- 2^64: all GPR/FPR contents and memory slots are 64-bit words. -/
def W64 : Nat := 2 ^ 64

/-- 2^32, for the 32-bit operations (`sub32`, `zeroExtend32ToPtr`, `load32`). -/
def W32 : Nat := 2 ^ 32

/-- The constant held by `GPRInfo::tagTypeNumberRegister` (JSVALUE64 encoding:
`TagTypeNumber = 0xffff000000000000`). -/
def TagTypeNumber : Nat := 0xffff000000000000

/-- The constant held by `GPRInfo::tagMaskRegister`
(`TagMask = TagTypeNumber | TagBitTypeOther`). -/
def TagMaskVal : Nat := 0xffff000000000002

/-- Encoded JSValue `false` (`ValueFalse`), used by the boolean recovery. -/
def ValueFalseEnc : Nat := 0x6

/-- Encoded JSValue `undefined` (`jsUndefined()`), used by the constant pass. -/
def ValueUndefinedEnc : Nat := 0xa

/-- 64-bit wrapping addition. -/
def wadd (a b : Nat) : Nat := (a + b) % W64

/-- 64-bit wrapping subtraction. -/
def wsub (a b : Nat) : Nat := (a % W64 + (W64 - b % W64)) % W64

/-- Bitwise or (operands are kept below 2^64). -/
def wor (a b : Nat) : Nat := a ||| b

/-- Bitwise xor, wrapped to 64 bits. -/
def wxor (a b : Nat) : Nat := (a ^^^ b) % W64

/-- Low 32 bits of a word. -/
def low32 (a : Nat) : Nat := a % W32

/-- Pointwise update of a `Nat`-indexed register file. -/
def updN (f : Nat → Nat) (i : Nat) (v : Nat) : Nat → Nat :=
  fun j => if j = i then v else f j

/-- Pointwise update of an `Int`-indexed memory (register-file slots). -/
def updZ (f : Int → Nat) (i : Int) (v : Nat) : Int → Nat :=
  fun j => if j = i then v else f j

/-- The data formats of the DFG tier (`DataFormat`).  The constructors mirror
the names used at the call sites in `src/dfg/DFGJITCompiler.cpp`
(`DataFormatInteger`, `DataFormatDouble`, `DataFormatCell`, `DataFormatJS`,
`DataFormatJSInteger`, `DataFormatJSDouble`, `DataFormatJSCell`,
`DataFormatJSBoolean`). -/
inductive DataFormat
  | integer
  | double
  | cell
  | js
  | jsInteger
  | jsDouble
  | jsCell
  | jsBoolean
deriving DecidableEq, Repr

/-- Modelled from the spec: `needDataFormatConversion` is declared in a DFG
header that is not part of this snapshot (only its call sites are in
`src/dfg/DFGJITCompiler.cpp`).  Per the spec §4.1 ("if `src_tag == dst_tag`,
emit nothing") and the conversion table ("`Int32 → Boxed*`", "`Boxed* → Int32`",
boxed forms interchangeable), a conversion is needed exactly when exactly one
side is a raw (`integer`/`double`) format, or the raw formats differ. -/
def needDataFormatConversion : DataFormat → DataFormat → Bool
  | .integer, t => t ≠ .integer
  | .double, t => t ≠ .double
  | _, .integer => true
  | _, .double => true
  | _, _ => false

/-- `GeneralizedRegister`: either a GPR or an FPR, identified by its
allocator index (`createGPR` / `createFPR`). -/
inductive GenReg
  | gprReg (g : Nat)
  | fprReg (f : Nat)
deriving DecidableEq, Repr

/-- `GeneralizedRegister::isFPR`. -/
def GenReg.isFPR : GenReg → Bool
  | .gprReg _ => false
  | .fprReg _ => true

/-- `GeneralizedRegister::gpr()`.  The source asserts `!isFPR()`; on an FPR the
model returns the FPR index (such a call is unreachable in well-formed use). -/
def GenReg.gprGet : GenReg → Nat
  | .gprReg g => g
  | .fprReg f => f

/-- `GeneralizedRegister::fpr()`.  The source asserts `isFPR()`. -/
def GenReg.fprGet : GenReg → Nat
  | .gprReg g => g
  | .fprReg f => f

/-- Physical register configuration: `GPRInfo::numberOfRegisters` and
`FPRInfo::numberOfRegisters` (platform parameters declared outside src/). -/
structure RegConfig where
  numGPR : Nat
  numFPR : Nat
deriving DecidableEq, Repr

/-- The id used for `GPRInfo::tagMaskRegister` in the machine state.  It is a
reserved register outside the allocatable range `0..numGPR-1`; its concrete
encoding is immaterial, it only needs to be distinct from allocatable ids. -/
def tagMaskRegId : Nat := 1000

/-- Abstract Emitter operations, one constructor per macro-assembler call made
by the source.  The `branchConvertDoubleToInt32 / orPtr / jump / boxDouble`
diamond of `GeneralizedRegister::moveTo` and `swapWith` is represented as the
single structured operation `boxDoubleConvertAttempt` (its internal branches
are data-dependent; its net effect on the machine state is well defined), and
likewise the load/branch/unbox diamond of `fillNumericToDouble` is
`fillNumericDiamond`. -/
inductive Instr
  | move (src dst : Nat)
  | moveImm (imm : Nat) (dst : Nat)
  | swapOp (a b : Nat)
  | orTTN (dst : Nat)
  | orTTN3 (src dst : Nat)
  | subTTN (dst : Nat)
  | sub32 (src dst : Nat)
  | xorImm32 (imm : Nat) (dst : Nat)
  | zeroExtend32 (src dst : Nat)
  | moveDouble (src dst : Nat)
  | moveDoubleToPtr (src dst : Nat)
  | movePtrToDouble (src dst : Nat)
  | boxDouble (src dst : Nat)
  | unboxDouble (src dst : Nat)
  | boxDoubleConvertAttempt (src dst scratch : Nat)
  | loadSlot (slot : Int) (dst : Nat)
  | load32Slot (slot : Int) (dst : Nat)
  | storeSlot (src : Nat) (slot : Int)
  | storeImmSlot (imm : Nat) (slot : Int)
  | storeScratch (src : Nat) (idx : Nat)
  | loadScratch (idx : Nat) (dst : Nat)
  | storeExecuteCounter (imm : Nat)
  | fillNumericDiamond (slot : Int) (fpr : Nat) (temp : Nat)
  | jumpEntry
  | jumpReg (r : Nat)
deriving DecidableEq, Repr

/-- The machine state: GPR file (including the reserved tag registers), FPR
file, register-file memory (indexed by virtual-register slot), the per-exit
scratch buffer (a separate allocation, hence a separate address space), and
the baseline tier's execute counter cell. -/
structure MState where
  gprs : Nat → Nat
  fprs : Nat → Nat
  mem : Int → Nat
  scratchBuf : Nat → Nat
  counter : Nat

/-- Oracle for the floating-point conversions the Emitter contract leaves
abstract: `d2i` decodes a double bit-pattern as an exact int32 when
representable (the `branchConvertDoubleToInt32` test), `trunc` is the raw
truncation result on failure, and `i2d` encodes an int32 as double bits.
No theorem below depends on the oracle's values. -/
structure Oracle where
  d2i : Nat → Option Nat
  trunc : Nat → Nat
  i2d : Nat → Nat

/-- Small-step semantics of one Emitter operation, following the contract of
spec §3/§6 (boxing a double subtracts the `TagTypeNumber` bias, unboxing adds
it, integer boxing ors the tag bits, 32-bit operations zero-extend). -/
def stepI (o : Oracle) (s : MState) : Instr → MState
  | .move src dst => { s with gprs := updN s.gprs dst (s.gprs src) }
  | .moveImm imm dst => { s with gprs := updN s.gprs dst (imm % W64) }
  | .swapOp a b =>
      { s with gprs := updN (updN s.gprs a (s.gprs b)) b (s.gprs a) }
  | .orTTN dst => { s with gprs := updN s.gprs dst (wor (s.gprs dst) TagTypeNumber) }
  | .orTTN3 src dst => { s with gprs := updN s.gprs dst (wor (s.gprs src) TagTypeNumber) }
  | .subTTN dst => { s with gprs := updN s.gprs dst (wsub (s.gprs dst) TagTypeNumber) }
  | .sub32 src dst =>
      { s with gprs := updN s.gprs dst ((low32 (s.gprs dst) + (W32 - low32 (s.gprs src))) % W32) }
  | .xorImm32 imm dst => { s with gprs := updN s.gprs dst (wxor (s.gprs dst) imm) }
  | .zeroExtend32 src dst => { s with gprs := updN s.gprs dst (low32 (s.gprs src)) }
  | .moveDouble src dst => { s with fprs := updN s.fprs dst (s.fprs src) }
  | .moveDoubleToPtr src dst => { s with gprs := updN s.gprs dst (s.fprs src) }
  | .movePtrToDouble src dst => { s with fprs := updN s.fprs dst (s.gprs src) }
  | .boxDouble src dst => { s with gprs := updN s.gprs dst (wsub (s.fprs src) TagTypeNumber) }
  | .unboxDouble src dst => { s with fprs := updN s.fprs dst (wadd (s.gprs src) TagTypeNumber) }
  | .boxDoubleConvertAttempt src dst scratch =>
      match o.d2i (s.fprs src) with
      | some i =>
          { s with gprs := updN s.gprs dst (wor (low32 i) TagTypeNumber),
                   fprs := updN s.fprs scratch (o.i2d (low32 i)) }
      | none =>
          { s with gprs := updN s.gprs dst (wsub (s.fprs src) TagTypeNumber),
                   fprs := updN s.fprs scratch (o.i2d (o.trunc (s.fprs src))) }
  | .loadSlot slot dst => { s with gprs := updN s.gprs dst (s.mem slot) }
  | .load32Slot slot dst => { s with gprs := updN s.gprs dst (low32 (s.mem slot)) }
  | .storeSlot src slot => { s with mem := updZ s.mem slot (s.gprs src) }
  | .storeImmSlot imm slot => { s with mem := updZ s.mem slot (imm % W64) }
  | .storeScratch src idx => { s with scratchBuf := updN s.scratchBuf idx (s.gprs src) }
  | .loadScratch idx dst => { s with gprs := updN s.gprs dst (s.scratchBuf idx) }
  | .storeExecuteCounter imm => { s with counter := imm }
  | .fillNumericDiamond slot f temp =>
      { s with gprs := updN s.gprs temp (s.mem slot),
               fprs := updN s.fprs f
                 (if TagTypeNumber ≤ s.mem slot then o.i2d (low32 (s.mem slot))
                  else wadd (s.mem slot) TagTypeNumber) }
  | .jumpEntry => s
  | .jumpReg _ => s

/-- Run a whole emitted sequence. -/
def runI (o : Oracle) (s : MState) (ops : List Instr) : MState :=
  ops.foldl (stepI o) s

theorem runI_nil (o : Oracle) (s : MState) : runI o s [] = s := rfl

theorem runI_cons (o : Oracle) (s : MState) (i : Instr) (ops : List Instr) :
    runI o s (i :: ops) = runI o (stepI o s i) ops := rfl

theorem runI_append (o : Oracle) (s : MState) (l1 l2 : List Instr) :
    runI o s (l1 ++ l2) = runI o (runI o s l1) l2 := by
  simp [runI, List.foldl_append]

/-! ## OSR exit emitter (`JITCompiler::exitSpeculativeWithOSR`, lines 104-453) -/

/-- Modelled from the spec: the `ValueRecovery` class is declared in a DFG
header outside src/ (only its call sites are in `DFGJITCompiler.cpp`).  Its
techniques follow spec §3's `ValueDescriptor`; `alreadyInRegisterFile`
represents the techniques on which every dispatch in the emitter takes its
`default:` branch. -/
inductive VRec
  | inGPR (gpr : Nat)
  | unboxedInt32InGPR (gpr : Nat)
  | inFPR (fpr : Nat)
  | displacedInRegisterFile (virtualReg : Int)
  | constantRec (enc : Nat)
  | alreadyInRegisterFile
deriving DecidableEq, Repr

/-- Modelled from the spec: `RegisterFile::CallFrameHeaderSize`, the number of
call-frame header slots separating argument operands from local operands.  Its
exact value is immaterial to the claims (argument operands are negative either
way); 6 matches the runtime this source targets. -/
def CallFrameHeaderSize : Nat := 6

/-- Modelled from the spec: the `OSRExit` descriptor (vectors of argument and
variable value recoveries, plus `m_lastSetOperand`) is declared in a DFG
header outside src/; spec §4.4 and the glossary describe recoveries addressed
by canonical call-frame home slots, with arguments below the frame header. -/
structure OSRExitM where
  argRecs : List VRec
  varRecs : List VRec
  lastSetOperand : Int
deriving DecidableEq, Repr

/-- `exit.numberOfRecoveries()` enumerates arguments then variables. -/
def OSRExitM.recList (e : OSRExitM) : List VRec := e.argRecs ++ e.varRecs

/-- `exit.operandForIndex(index)`: argument operands sit below the call-frame
header (negative), variable operands are the locals `0, 1, 2, …`. -/
def OSRExitM.operandForIndex (e : OSRExitM) (i : Nat) : Int :=
  if i < e.argRecs.length then (i : Int) - e.argRecs.length - CallFrameHeaderSize
  else (i : Int) - e.argRecs.length

/-- `exit.isVariable(index)`. -/
def OSRExitM.isVariable (e : OSRExitM) (i : Nat) : Bool :=
  decide (e.argRecs.length ≤ i)

/-- `exit.variableForIndex(index)`. -/
def OSRExitM.variableForIndex (e : OSRExitM) (i : Nat) : Nat :=
  i - e.argRecs.length

/-- Modelled from the spec: `SpeculationRecovery` is declared outside src/;
spec §3's `RecoveryAction` lists the two kinds (`UndoSpeculativeAdd{src,dest}`
and `UndoBooleanGuard{dest}`), matching the two switch cases at both call
sites. -/
inductive SpecRecovery
  | speculativeAdd (src dest : Nat)
  | booleanSpeculationCheck (dest : Nat)
deriving DecidableEq, Repr

/-- Pointwise update of an `Int`-indexed boolean vector (the
`poisonedVirtualRegisters` vector). -/
def updB (f : Int → Bool) (i : Int) : Int → Bool :=
  fun j => if j = i then true else f j

/-- State of the classification loop of `exitSpeculativeWithOSR` step 3
(lines 158-221): the poisoned-virtual-register vector, the two counters, and
the four fast-check booleans. -/
structure ClassifyState where
  poisoned : Int → Bool
  nPoisoned : Nat
  nDisplaced : Nat
  haveUnboxedInt32s : Bool
  haveFPRs : Bool
  haveConstants : Bool
  haveUndefined : Bool

def classifyInit : ClassifyState :=
  ⟨fun _ => false, 0, 0, false, false, false, false⟩

/-- The techniques for which a displaced source's home variable counts as
poisoned (`case InGPR: case UnboxedInt32InGPR: case InFPR:`, lines 190-192). -/
def varTechniqueLive : Option VRec → Bool
  | some (.inGPR _) => true
  | some (.unboxedInt32InGPR _) => true
  | some (.inFPR _) => true
  | _ => false

/-- One iteration of the classification loop (lines 174-221). -/
def classifyStep (e : OSRExitM) (st : ClassifyState) (r : VRec) : ClassifyState :=
  match r with
  | .displacedInRegisterFile vr =>
      let st1 := { st with nDisplaced := st.nDisplaced + 1 }
      if vr < (e.varRecs.length : Int) then
        if varTechniqueLive (e.varRecs.get? vr.toNat) then
          if st1.poisoned vr then st1
          else { st1 with poisoned := updB st1.poisoned vr, nPoisoned := st1.nPoisoned + 1 }
        else st1
      else st1
  | .unboxedInt32InGPR _ => { st with haveUnboxedInt32s := true }
  | .inFPR _ => { st with haveFPRs := true }
  | .constantRec enc =>
      let st1 := { st with haveConstants := true }
      if enc = ValueUndefinedEnc then { st1 with haveUndefined := true } else st1
  | _ => st

/-- The whole classification loop. -/
def classify (e : OSRExitM) : ClassifyState :=
  e.recList.foldl (classifyStep e) classifyInit

/-- The scratch-buffer size request (in `EncodedJSValue` slots) of line 223. -/
def osrScratchSlots (cfg : RegConfig) (e : OSRExitM) : Nat :=
  (classify e).nPoisoned +
    (if (classify e).nDisplaced ≤ cfg.numGPR then 0 else (classify e).nDisplaced)

/-- The speculation-recovery pre-pass of the OSR variant (lines 133-150):
emitted operations plus the `alreadyBoxed` register. -/
def osrRecoveryPrePass : Option SpecRecovery → List Instr × Option Nat
  | some (.speculativeAdd src dest) => ([.sub32 src dest, .orTTN dest], some dest)
  | some (.booleanSpeculationCheck dest) => ([.xorImm32 ValueFalseEnc dest], none)
  | none => ([], none)

/-- The loop body of step 4 (lines 231-235): rebox an unboxed Int32 GPR
unless it is `alreadyBoxed`. -/
def osrStep4Body (alreadyBoxed : Option Nat) (acc : List Instr) (r : VRec) :
    List Instr :=
  match r with
  | .unboxedInt32InGPR g => if some g ≠ alreadyBoxed then acc ++ [.orTTN g] else acc
  | _ => acc

/-- Step 4 (lines 230-236): rebox unboxed Int32 GPRs, skipping `alreadyBoxed`,
guarded by the `haveUnboxedInt32s` fast check. -/
def osrStep4 (e : OSRExitM) (alreadyBoxed : Option Nat) : List Instr :=
  if (classify e).haveUnboxedInt32s then
    e.recList.foldl (osrStep4Body alreadyBoxed) []
  else []

/-- The shared body of the GPR/FPR dump loops (store to the home slot, or to
the next scratch-buffer slot when the destination variable is poisoned). -/
def osrDumpOne (e : OSRExitM) (acc : List Instr × Nat) (i srcReg : Nat) :
    List Instr × Nat :=
  if e.isVariable i && (classify e).poisoned ((e.variableForIndex i : Int)) then
    (acc.1 ++ [.storeScratch srcReg acc.2], acc.2 + 1)
  else (acc.1 ++ [.storeSlot srcReg (e.operandForIndex i)], acc.2)

/-- Step 5 (lines 242-257): dump all GPR-held values; returns the emitted
operations and the final scratch index. -/
def osrStep5 (e : OSRExitM) : List Instr × Nat :=
  (List.range e.recList.length).foldl (fun acc i =>
    match (e.recList.get? i : Option VRec) with
    | some (.inGPR g) => osrDumpOne e acc i g
    | some (.unboxedInt32InGPR g) => osrDumpOne e acc i g
    | _ => acc) ([], 0)

/-- Steps 6-7 (lines 261-286), guarded by `haveFPRs`: box each FPR into the
GPR of the same index (`GPRInfo::toRegister(FPRInfo::toIndex(fpr))`), then
dump.  Returns the operations and the final scratch index. -/
def osrStep67 (e : OSRExitM) (scratchStart : Nat) : List Instr × Nat :=
  if (classify e).haveFPRs then
    let boxes := e.recList.foldl (fun acc r =>
      match r with
      | .inFPR f => acc ++ [Instr.boxDouble f f]
      | _ => acc) ([] : List Instr)
    let dumps := (List.range e.recList.length).foldl (fun acc i =>
      match (e.recList.get? i : Option VRec) with
      | some (.inFPR f) => osrDumpOne e acc i f
      | _ => acc) (([] : List Instr), scratchStart)
    (boxes ++ dumps.1, dumps.2)
  else ([], scratchStart)

/-- One iteration of step 8's load loop (lines 300-305): load a displaced
source slot into the next consecutive GPR. -/
def step8LoadBody (e : OSRExitM) (acc : List Instr × Nat) (i : Nat) :
    List Instr × Nat :=
  match (e.recList.get? i : Option VRec) with
  | some (.displacedInRegisterFile vr) => (acc.1 ++ [.loadSlot vr acc.2], acc.2 + 1)
  | _ => acc

/-- One iteration of step 8's store loop (lines 307-313): store the next
consecutive GPR to the destination home slot. -/
def step8StoreBody (e : OSRExitM) (acc : List Instr × Nat) (i : Nat) :
    List Instr × Nat :=
  match (e.recList.get? i : Option VRec) with
  | some (.displacedInRegisterFile _) =>
      (acc.1 ++ [.storeSlot acc.2 (e.operandForIndex i)], acc.2 + 1)
  | _ => acc

/-- One iteration of step 8's staging-in loop (lines 332-338): lift a
displaced source slot through `regT0` into the next scratch-buffer slot. -/
def step8StageInBody (e : OSRExitM) (acc : List Instr × Nat) (i : Nat) :
    List Instr × Nat :=
  match (e.recList.get? i : Option VRec) with
  | some (.displacedInRegisterFile vr) =>
      (acc.1 ++ [.loadSlot vr 0, .storeScratch 0 acc.2], acc.2 + 1)
  | _ => acc

/-- One iteration of step 8's staging-out loop (lines 341-347): drop a
scratch-buffer slot through `regT0` into the destination home slot. -/
def step8StageOutBody (e : OSRExitM) (acc : List Instr × Nat) (i : Nat) :
    List Instr × Nat :=
  match (e.recList.get? i : Option VRec) with
  | some (.displacedInRegisterFile _) =>
      (acc.1 ++ [.loadScratch acc.2 0, .storeSlot 0 (e.operandForIndex i)], acc.2 + 1)
  | _ => acc

/-- Step 8 (lines 294-351): resolve displaced virtual registers.  When their
number fits in the GPR file, load them all into consecutive GPRs (in recovery
index order) and then store them all; otherwise stage every one through the
scratch buffer via `regT0` (GPR 0). -/
def osrStep8 (cfg : RegConfig) (e : OSRExitM) (scratchStart : Nat) : List Instr :=
  if (classify e).nDisplaced = 0 then [] else
  if (classify e).nDisplaced ≤ cfg.numGPR then
    ((List.range e.recList.length).foldl (step8LoadBody e) ([], 0)).1 ++
    ((List.range e.recList.length).foldl (step8StoreBody e) ([], 0)).1
  else
    ((List.range e.recList.length).foldl (step8StageInBody e) ([], scratchStart)).1 ++
    ((List.range e.recList.length).foldl (step8StageOutBody e)
      ([], (classify e).nPoisoned)).1

/-- Step 9 (lines 353-375): drain poisoned scratch entries to their home
slots through `regT0`. -/
def osrStep9 (e : OSRExitM) : List Instr :=
  if (classify e).nPoisoned = 0 then [] else
  ((List.range e.varRecs.length).foldl (fun (acc : List Instr × Nat) (vr : Nat) =>
    if (classify e).poisoned (vr : Int) then
      match (e.varRecs.get? vr : Option VRec) with
      | some (.inGPR _) => (acc.1 ++ [.loadScratch acc.2 0, .storeSlot 0 (vr : Int)], acc.2 + 1)
      | some (.unboxedInt32InGPR _) =>
          (acc.1 ++ [.loadScratch acc.2 0, .storeSlot 0 (vr : Int)], acc.2 + 1)
      | some (.inFPR _) => (acc.1 ++ [.loadScratch acc.2 0, .storeSlot 0 (vr : Int)], acc.2 + 1)
      | _ => acc
    else acc) ([], 0)).1

/-- Step 10 (lines 380-393): materialise constants, fast-pathing `undefined`
through `regT0`. -/
def osrStep10 (e : OSRExitM) : List Instr :=
  if (classify e).haveConstants then
    (if (classify e).haveUndefined then [Instr.moveImm ValueUndefinedEnc 0] else []) ++
    (List.range e.recList.length).foldl (fun acc i =>
      match (e.recList.get? i : Option VRec) with
      | some (.constantRec enc) =>
          if enc = ValueUndefinedEnc then acc ++ [.storeSlot 0 (e.operandForIndex i)]
          else acc ++ [.storeImmSlot enc (e.operandForIndex i)]
      | _ => acc) []
  else []

/-- `std::numeric_limits<int>::max()`, the `m_lastSetOperand` sentinel. -/
def intMaxSentinel : Int := 2147483647

/-- `GPRInfo::cachedResultRegister` is `regT0`, allocator index 0. -/
def cachedResultRegister : Nat := 0

/-- Step 12 (lines 426-429): load the last-set operand into the cached result
register unless the sentinel is present. -/
def osrStep12 (e : OSRExitM) : List Instr :=
  if e.lastSetOperand ≠ intMaxSentinel then
    [.loadSlot e.lastSetOperand cachedResultRegister]
  else []

/-- Modelled from the spec: the call-frame header slot `RegisterFile::CodeBlock`
(declared outside src/); its exact value is immaterial to the claims. -/
def codeBlockSlot : Int := -2

/-- The whole OSR exit emitter (`JITCompiler::exitSpeculativeWithOSR`,
lines 104-453).  `counterImm` is the baseline tier's warm-up counter value,
`codeBlockPtr` the baseline code-block pointer and `jumpTarget` the
machine-code address found by the bytecode-map binary search — all three are
values obtained from structures outside src/ and enter the emitted code only
as immediates. -/
def exitSpeculativeWithOSR (cfg : RegConfig) (e : OSRExitM)
    (recovery : Option SpecRecovery) (counterImm codeBlockPtr jumpTarget : Nat) :
    List Instr :=
  let pre := osrRecoveryPrePass recovery
  let s5 := osrStep5 e
  let s67 := osrStep67 e s5.2
  pre.1 ++ osrStep4 e pre.2 ++ s5.1 ++ s67.1 ++ osrStep8 cfg e s67.2 ++ osrStep9 e ++
    osrStep10 e ++ [.storeExecuteCounter counterImm] ++ osrStep12 e ++
    [.storeImmSlot codeBlockPtr codeBlockSlot] ++ [.moveImm jumpTarget 1, .jumpReg 1]

/-! ## Bridging variant (`jumpFromSpeculativeToNonSpeculative` and its helper
classes, lines 473-1180) -/

/-- `SpeculationCheck::RegisterInfo` / `EntryLocation::RegisterInfo`: the node
held by a physical register (`NoNode` = `none`), its data format, and whether
the value is also spilled to its home slot. -/
structure RegInfo where
  nodeIndex : Option Nat
  format : DataFormat
  isSpilled : Bool
deriving DecidableEq, Repr

/-- A register-map snapshot (`SpeculationCheck`): the `m_gprInfo` and
`m_fprInfo` arrays as total functions on allocator indices. -/
structure SpeculationCheck where
  gprInfo : Nat → RegInfo
  fprInfo : Nat → RegInfo

/-- `EntryLocation` has the same register-map shape (it additionally carries
the entry label, represented by the `jumpEntry` operation). -/
abbrev EntryLocation := SpeculationCheck

/-- Modelled from the spec: the graph IR (`graph()[nodeIndex]`) is an external
collaborator (spec §2 "read-only views", §6).  Per node: its home
virtual-register slot, whether it is a constant, and the three encodings the
fill helpers read (`reinterpretDoubleToIntptr(valueOfNumberConstant(..))`,
`valueOfInt32Constant(..)`, `JSValue::encode(..)` of the constant). -/
structure NodeM where
  virtualRegister : Int
  isConstant : Bool
  rawDoubleBits : Nat
  int32Val : Nat
  encodedJS : Nat
deriving DecidableEq, Repr

/-- `GeneralizedRegister::findInSpeculationCheck` / `findInEntryLocation`
(lines 510-522). -/
def grFindInfo (m : SpeculationCheck) : GenReg → RegInfo
  | .gprReg gr => m.gprInfo gr
  | .fprReg fr => m.fprInfo fr

/-- `GeneralizedRegister::previousDataFormat` (line 524). -/
def previousDataFormat (check : SpeculationCheck) (r : GenReg) : DataFormat :=
  (grFindInfo check r).format

/-- `GeneralizedRegister::nextDataFormat` (line 529). -/
def nextDataFormat (entry : EntryLocation) (r : GenReg) : DataFormat :=
  (grFindInfo entry r).format

/-- `GeneralizedRegister::convert` (lines 534-547). -/
def grConvert (r : GenReg) (oldF newF : DataFormat) : List Instr :=
  if !needDataFormatConversion oldF newF then []
  else if oldF = .integer then [.orTTN r.gprGet]
  else [.zeroExtend32 r.gprGet r.gprGet]

/-- `GeneralizedRegister::moveTo` (lines 549-592).  The
`branchConvertDoubleToInt32 / orPtr / jump / boxDouble` diamond taken when an
FPR moves to a GPR with a scratch FPR available is the structured operation
`boxDoubleConvertAttempt`. -/
def grMoveTo (self other : GenReg) (myF otherF : DataFormat)
    (scratchFPR : Option Nat) : List Instr :=
  match self, other with
  | .fprReg fr, .fprReg f2 => [.moveDouble fr f2]
  | .fprReg fr, .gprReg gr =>
      (match scratchFPR with
       | some sf => [.boxDoubleConvertAttempt fr gr sf]
       | none => [.boxDouble fr gr])
  | .gprReg gr, .fprReg fr => [.unboxDouble gr fr]
  | .gprReg g1, .gprReg g2 =>
      if !needDataFormatConversion myF otherF then [.move g1 g2]
      else if myF = .integer then [.orTTN3 g1 g2]
      else [.zeroExtend32 g1 g2]

/-- `GeneralizedRegister::swapWith` (lines 594-651).  The GPR/FPR case
delegates to the FPR/GPR case with the roles swapped (lines 631-634); that
call is inlined here. -/
def grSwapWith (self other : GenReg) (myF myNewF otherF otherNewF : DataFormat)
    (scratchGPR : Nat) (scratchFPR : Option Nat) : List Instr :=
  match self, other with
  | .fprReg fr, .fprReg f2 =>
      (match scratchFPR with
       | none => [.moveDoubleToPtr fr scratchGPR, .moveDouble f2 fr,
                  .movePtrToDouble scratchGPR f2]
       | some sf => [.moveDouble fr sf, .moveDouble f2 fr, .moveDouble sf f2])
  | .fprReg fr, .gprReg gr =>
      [.move gr scratchGPR] ++
      (match scratchFPR with
       | some sf => [.boxDoubleConvertAttempt fr gr sf]
       | none => [.boxDouble fr gr]) ++
      [.unboxDouble scratchGPR fr]
  | .gprReg gr, .fprReg fr =>
      [.move gr scratchGPR] ++
      (match scratchFPR with
       | some sf => [.boxDoubleConvertAttempt fr gr sf]
       | none => [.boxDouble fr gr]) ++
      [.unboxDouble scratchGPR fr]
  | .gprReg g1, .gprReg g2 =>
      [.swapOp g1 g2] ++
      (if needDataFormatConversion otherF myNewF then
         (if otherF = .integer then [.orTTN g1]
          else if myNewF = .integer then [.zeroExtend32 g1 g1] else [])
       else []) ++
      (if needDataFormatConversion myF otherNewF then
         (if myF = .integer then [.orTTN g2]
          else if otherNewF = .integer then [.zeroExtend32 g2 g2] else [])
       else [])

/-- `NodeToRegisterMap` (lines 799-846): a fixed-capacity association vector;
`set` appends at `m_occupancy` and `find` scans from the most recent entry
downwards. -/
abbrev NRMap := List (Nat × GenReg)

/-- `NodeToRegisterMap::set`. -/
def nrSet (m : NRMap) (k : Nat) (v : GenReg) : NRMap := m ++ [(k, v)]

/-- `NodeToRegisterMap::find` (scans newest-first, lines 829-836). -/
def nrFind (m : NRMap) (k : Nat) : Option GenReg :=
  (m.reverse.find? (fun p => p.1 == k)).map (fun p => p.2)

/-- `ShuffledRegister` (lines 661-781): a node of the permutation graph.
`previous` is the combined index of the register whose value moves here. -/
structure SReg where
  reg : GenReg
  previous : Option Nat
  hasFrom : Bool
  hasTo : Bool
  handled : Bool
deriving DecidableEq, Repr

/-- `ShuffledRegister::isEndOfNonCyclingPermutation` (line 679). -/
def SReg.isEndOfNonCyclingPermutation (r : SReg) : Bool := r.hasTo && !r.hasFrom

/-- `ShuffledRegister::lookup` / `lookupForRegister` index convention:
GPR `i` at combined index `i`, FPR `f` at `numGPR + f` (lines 775-790). -/
def lookupIdx (cfg : RegConfig) : GenReg → Nat
  | .gprReg gr => gr
  | .fprReg fr => cfg.numGPR + fr

/-- The freshly constructed `gprs[]` / `fprs[]` arrays (lines 962-968). -/
def initSRegs (cfg : RegConfig) : Nat → SReg := fun i =>
  ⟨if i < cfg.numGPR then .gprReg i else .fprReg (i - cfg.numGPR),
   none, false, false, false⟩

/-- Pointwise update of the combined `ShuffledRegister` array. -/
def updS (regs : Nat → SReg) (i : Nat) (r : SReg) : Nat → SReg :=
  fun j => if j = i then r else regs j

/-- The scratch-FPR update performed on each FPR node of a chain
(lines 690-697 and 701-708 — note the source performs this on the node that
was just *written*, not on the one that was read). -/
def markFPRScratch (r : GenReg) (s1 s2 : Option Nat) : Option Nat × Option Nat :=
  match r with
  | .fprReg fr => (match s1 with
                   | none => (some fr, s2)
                   | some x => (some x, some fr))
  | .gprReg _ => (s1, s2)

/-- `ShuffledRegister::handleNonCyclingPermutation` (lines 684-709): walk the
`previous` chain from the tail, emitting `moveTo` for each edge; fuel-bounded
(the chain length is at most the register count). -/
def handleNonCycling (check : SpeculationCheck) (entry : EntryLocation) :
    Nat → (Nat → SReg) → Nat → Option Nat → Option Nat →
    (Nat → SReg) × Option Nat × Option Nat × List Instr
  | 0, regs, _, s1, s2 => (regs, s1, s2, [])
  | fuel+1, regs, cur, s1, s2 =>
    match (regs cur).previous with
    | none =>
        let regs1 := updS regs cur { regs cur with handled := true }
        let ms := markFPRScratch (regs cur).reg s1 s2
        (regs1, ms.1, ms.2, [])
    | some p =>
        let ops := grMoveTo (regs p).reg (regs cur).reg
          (previousDataFormat check (regs p).reg)
          (nextDataFormat entry (regs cur).reg) s1
        let regs1 := updS regs cur { regs cur with handled := true }
        let ms := markFPRScratch (regs cur).reg s1 s2
        let rest := handleNonCycling check entry fuel regs1 p ms.1 ms.2
        (rest.1, rest.2.1, rest.2.2.1, ops ++ rest.2.2.2)

/-- The do-while loop of `handleCyclingPermutation` (lines 715-725): walk the
cycle once, counting its length, marking every node handled and remembering
the last node visited (the source's `next`). -/
def cycleWalk (start : Nat) :
    Nat → (Nat → SReg) → Nat → Nat → Option (Nat × Nat × (Nat → SReg))
  | 0, _, _, _ => none
  | fuel+1, regs, cur, len =>
    let regs1 := updS regs cur { regs cur with handled := true }
    match (regs1 cur).previous with
    | none => none
    | some nxt =>
        if nxt = start then some (len + 1, cur, regs1)
        else cycleWalk start fuel regs1 nxt (len + 1)

/-- The rotation loop of the length ≥ 3 case (lines 757-762):
`while (cur->previous != this) { moveTo(previous → cur); cur = previous; }`. -/
def cycleRotate (check : SpeculationCheck) (entry : EntryLocation) (start : Nat)
    (s1 : Option Nat) : Nat → (Nat → SReg) → Nat → List Instr
  | 0, _, _ => []
  | fuel+1, regs, cur =>
    match (regs cur).previous with
    | none => []
    | some p =>
        if p = start then []
        else
          grMoveTo (regs p).reg (regs cur).reg
            (previousDataFormat check (regs p).reg)
            (nextDataFormat entry (regs cur).reg) s1 ++
          cycleRotate check entry start s1 fuel regs p

/-- `ShuffledRegister::handleCyclingPermutation` (lines 711-773). -/
def handleCycling (cfg : RegConfig) (check : SpeculationCheck)
    (entry : EntryLocation) (regs : Nat → SReg) (start : Nat)
    (scratchGPR : Nat) (s1 s2 : Option Nat) : (Nat → SReg) × List Instr :=
  match cycleWalk start (cfg.numGPR + cfg.numFPR + 1) regs start 0 with
  | none => (regs, [])
  | some (cycleLength, next, regs1) =>
    match cycleLength with
    | 1 => (regs1, grConvert (regs1 start).reg
              (previousDataFormat check (regs1 start).reg)
              (nextDataFormat entry (regs1 start).reg))
    | 2 =>
        match (regs1 start).previous with
        | none => (regs1, [])
        | some p =>
            (regs1, grSwapWith (regs1 start).reg (regs1 p).reg
               (previousDataFormat check (regs1 start).reg)
               (nextDataFormat entry (regs1 start).reg)
               (previousDataFormat check (regs1 p).reg)
               (nextDataFormat entry (regs1 p).reg)
               scratchGPR s1)
    | _ =>
        let rreg := (regs1 start).reg
        let nreg := (regs1 next).reg
        let saveOps :=
          if rreg.isFPR && nreg.isFPR then
            match s2 with
            | none => grMoveTo rreg (.gprReg scratchGPR) .double .jsDouble s1
            | some sf2 => grMoveTo rreg (.fprReg sf2) .double .double s1
          else
            grMoveTo rreg (.gprReg scratchGPR) (previousDataFormat check rreg)
              (nextDataFormat entry nreg) s1
        let rotOps := cycleRotate check entry start s1
          (cfg.numGPR + cfg.numFPR + 1) regs1 start
        let restoreOps :=
          if rreg.isFPR && nreg.isFPR then
            match s2 with
            | none => grMoveTo (.gprReg scratchGPR) nreg .jsDouble .double s1
            | some sf2 => grMoveTo (.fprReg sf2) nreg .double .double s1
          else
            grMoveTo (.gprReg scratchGPR) nreg (nextDataFormat entry nreg)
              (nextDataFormat entry nreg) s1
        (regs1, saveOps ++ rotOps ++ restoreOps)

/-- State threaded through the reverse-map construction and initial scratch
discovery (lines 910-944). -/
structure DiscoveryState where
  checkMap : NRMap
  entryMap : NRMap
  scratchGPR : Option Nat
  scratchFPR1 : Option Nat
  scratchFPR2 : Option Nat

/-- One GPR iteration of the reverse-map construction and initial scratch
discovery (lines 918-930). -/
def discGprStep (check : SpeculationCheck) (entry : EntryLocation)
    (st : DiscoveryState) (i : Nat) : DiscoveryState :=
  let stA := match (check.gprInfo i).nodeIndex with
    | some n => { st with checkMap := nrSet st.checkMap n (.gprReg i) }
    | none => st
  match (entry.gprInfo i).nodeIndex with
  | some n => { stA with entryMap := nrSet stA.entryMap n (.gprReg i) }
  | none =>
      if (check.gprInfo i).nodeIndex = none then { stA with scratchGPR := some i }
      else stA

/-- One FPR iteration of the reverse-map construction and initial scratch
discovery (lines 931-942). -/
def discFprStep (check : SpeculationCheck) (entry : EntryLocation)
    (st : DiscoveryState) (i : Nat) : DiscoveryState :=
  let stA := match (check.fprInfo i).nodeIndex with
    | some n => { st with checkMap := nrSet st.checkMap n (.fprReg i) }
    | none => st
  match (entry.fprInfo i).nodeIndex with
  | some n => { stA with entryMap := nrSet stA.entryMap n (.fprReg i) }
  | none =>
      if (check.fprInfo i).nodeIndex = none then
        (if stA.scratchFPR1 = none then { stA with scratchFPR1 := some i }
         else { stA with scratchFPR2 := some i })
      else stA

/-- The reverse-map construction and initial scratch discovery
(lines 918-942). -/
def bridgeDiscovery (cfg : RegConfig) (check : SpeculationCheck)
    (entry : EntryLocation) : DiscoveryState :=
  (List.range cfg.numFPR).foldl (discFprStep check entry)
    ((List.range cfg.numGPR).foldl (discGprStep check entry) ⟨[], [], none, none, none⟩)

/-- State of the GPR spill pass (part 1, lines 970-1011). -/
structure GprSpillState where
  regs : Nat → SReg
  scratchGPR : Option Nat
  ops : List Instr

/-- One iteration of the GPR spill pass (lines 970-1011): link live registers
into the permutation graph, reclassify exit-live-but-entry-dead registers as
scratch, and spill what the entry side expects spilled. -/
def bridgeGprSpillStep (cfg : RegConfig) (g : Nat → NodeM)
    (check : SpeculationCheck) (entry : EntryLocation) (em : NRMap)
    (st : GprSpillState) (i : Nat) : GprSpillState :=
  match (check.gprInfo i).nodeIndex with
  | none => st
  | some n =>
    let found := nrFind em n
    let stA := match found with
      | some er =>
          let regs1 := updS st.regs i { st.regs i with hasFrom := true }
          let ni := lookupIdx cfg er
          { st with regs := updS regs1 ni { regs1 ni with previous := some i, hasTo := true } }
      | none =>
          if (entry.gprInfo i).nodeIndex = none then { st with scratchGPR := some i }
          else st
    let skip : Bool :=
      (match found with
       | some er => !(grFindInfo entry er).isSpilled
       | none => false) || (check.gprInfo i).isSpilled
    if skip then stA
    else
      { stA with ops := stA.ops ++
          (if (check.gprInfo i).format = .integer then [Instr.orTTN i] else []) ++
          [Instr.storeSlot i (g n).virtualRegister] }

/-- The tag-mask-register fallback (lines 1013-1016): the chosen scratch GPR
and the `needToRestoreTagMaskRegister` flag. -/
def bridgeFallback : Option Nat → Nat × Bool
  | none => (tagMaskRegId, true)
  | some gr => (gr, false)

/-- State of the FPR spill pass (lines 1018-1054). -/
structure FprSpillState where
  regs : Nat → SReg
  scratchFPR1 : Option Nat
  scratchFPR2 : Option Nat
  ops : List Instr

/-- The truthiness test of the source's `else if (scratchFPR2)` (line 1040):
`scratchFPR2` is an `FPRReg` encoding, `InvalidFPRReg = (FPRReg)-1` is
non-zero, and `fpRegT0` has machine encoding 0. -/
def fprTruthy : Option Nat → Bool
  | none => true
  | some fr => fr ≠ 0

/-- One iteration of the FPR spill pass (lines 1018-1054).  `scratchGPR` is
the (post-fallback) scratch GPR used to box the double for spilling. -/
def bridgeFprSpillStep (cfg : RegConfig) (g : Nat → NodeM)
    (check : SpeculationCheck) (entry : EntryLocation) (em : NRMap)
    (scratchGPR : Nat) (st : FprSpillState) (i : Nat) : FprSpillState :=
  match (check.fprInfo i).nodeIndex with
  | none => st
  | some n =>
    let found := nrFind em n
    let stA := match found with
      | some er =>
          let ci := cfg.numGPR + i
          let regs1 := updS st.regs ci { st.regs ci with hasFrom := true }
          let ni := lookupIdx cfg er
          { st with regs := updS regs1 ni { regs1 ni with previous := some ci, hasTo := true } }
      | none =>
          if (entry.fprInfo i).nodeIndex = none then
            (if st.scratchFPR1 = none then { st with scratchFPR1 := some i }
             else if fprTruthy st.scratchFPR2 then { st with scratchFPR2 := some i }
             else st)
          else st
    let skip : Bool :=
      (match found with
       | some er => !(grFindInfo entry er).isSpilled
       | none => false) || (check.fprInfo i).isSpilled
    if skip then stA
    else
      { stA with ops := stA.ops ++
          [Instr.moveDoubleToPtr i scratchGPR, Instr.subTTN scratchGPR,
           Instr.storeSlot scratchGPR (g n).virtualRegister] }

/-- The whole GPR spill pass (part 1's loop over the GPRs, lines 970-1011). -/
def bridgeGprSpillPass (cfg : RegConfig) (g : Nat → NodeM)
    (check : SpeculationCheck) (entry : EntryLocation) (em : NRMap)
    (init : GprSpillState) : GprSpillState :=
  (List.range cfg.numGPR).foldl (bridgeGprSpillStep cfg g check entry em) init

/-- The whole FPR spill pass (lines 1018-1054). -/
def bridgeFprSpillPass (cfg : RegConfig) (g : Nat → NodeM)
    (check : SpeculationCheck) (entry : EntryLocation) (em : NRMap)
    (scratchGPR : Nat) (init : FprSpillState) : FprSpillState :=
  (List.range cfg.numFPR).foldl (bridgeFprSpillStep cfg g check entry em scratchGPR) init

/-- State of the two part-2 shuffle passes. -/
structure ShufflePassState where
  regs : Nat → SReg
  scratchFPR1 : Option Nat
  scratchFPR2 : Option Nat
  ops : List Instr

/-- One iteration of part 2's first loop (lines 1079-1085). -/
def bridgeNCStep (cfg : RegConfig) (check : SpeculationCheck)
    (entry : EntryLocation) (st : ShufflePassState) (i : Nat) : ShufflePassState :=
  let r := st.regs i
  if !r.isEndOfNonCyclingPermutation || r.handled || (!r.hasFrom && !r.hasTo) then st
  else
    let res := handleNonCycling check entry (cfg.numGPR + cfg.numFPR + 1)
      st.regs i st.scratchFPR1 st.scratchFPR2
    ⟨res.1, res.2.1, res.2.2.1, st.ops ++ res.2.2.2⟩

/-- Part 2, first loop (lines 1078-1085): process every chain from its end. -/
def bridgeNonCyclingPass (cfg : RegConfig) (check : SpeculationCheck)
    (entry : EntryLocation) (regs0 : Nat → SReg) (s1 s2 : Option Nat) :
    ShufflePassState :=
  (List.range (cfg.numGPR + cfg.numFPR)).foldl (bridgeNCStep cfg check entry)
    ⟨regs0, s1, s2, []⟩

/-- One iteration of part 2's second loop (lines 1088-1094). -/
def bridgeCYStep (cfg : RegConfig) (check : SpeculationCheck)
    (entry : EntryLocation) (scratchGPR : Nat) (s1 s2 : Option Nat)
    (st : (Nat → SReg) × List Instr) (i : Nat) : (Nat → SReg) × List Instr :=
  let r := st.1 i
  if r.handled || (!r.hasFrom && !r.hasTo) then st
  else
    let res := handleCycling cfg check entry st.1 i scratchGPR s1 s2
    (res.1, st.2 ++ res.2)

/-- Part 2, second loop (lines 1087-1094): process the remaining cycles.
Note the source passes `scratchFPR1`/`scratchFPR2` to
`handleCyclingPermutation` by value. -/
def bridgeCyclingPass (cfg : RegConfig) (check : SpeculationCheck)
    (entry : EntryLocation) (regs0 : Nat → SReg) (scratchGPR : Nat)
    (s1 s2 : Option Nat) : (Nat → SReg) × List Instr :=
  (List.range (cfg.numGPR + cfg.numFPR)).foldl
    (bridgeCYStep cfg check entry scratchGPR s1 s2) (regs0, [])

/-- `JITCompiler::fillNumericToDouble` (lines 43-60); the non-constant path's
load/branch/unbox diamond is the structured operation `fillNumericDiamond`.
The temporary is `GPRInfo::regT0`. -/
def fillNumericToDouble (g : Nat → NodeM) (n : Nat) (fpr temp : Nat) : List Instr :=
  if (g n).isConstant then
    [.moveImm (g n).rawDoubleBits temp, .movePtrToDouble temp fpr]
  else [.fillNumericDiamond (g n).virtualRegister fpr temp]

/-- `JITCompiler::fillInt32ToInteger` (lines 62-78; the debug-only assert load
is disabled). -/
def fillInt32ToInteger (g : Nat → NodeM) (n : Nat) (gpr : Nat) : List Instr :=
  if (g n).isConstant then [.moveImm (g n).int32Val gpr]
  else [.load32Slot (g n).virtualRegister gpr]

/-- `JITCompiler::fillToJS` (lines 80-101): every constant case emits a single
immediate move of the encoded JSValue. -/
def fillToJS (g : Nat → NodeM) (n : Nat) (gpr : Nat) : List Instr :=
  if (g n).isConstant then [.moveImm (g n).encodedJS gpr]
  else [.loadSlot (g n).virtualRegister gpr]

/-- One iteration of part 3's FPR fill loop (lines 1107-1117). -/
def fprFillStep (g : Nat → NodeM) (check : SpeculationCheck)
    (entry : EntryLocation) (cm : NRMap) (acc : List Instr) (i : Nat) : List Instr :=
  match (entry.fprInfo i).nodeIndex with
  | none => acc
  | some n =>
    if (entry.fprInfo i).isSpilled then acc
    else
      match nrFind cm n with
      | some cr =>
          if !(grFindInfo check cr).isSpilled then acc
          else acc ++ fillNumericToDouble g n i 0
      | none => acc ++ fillNumericToDouble g n i 0

/-- Part 3, FPR fill pass (lines 1106-1117). -/
def bridgeFprFillPass (cfg : RegConfig) (g : Nat → NodeM)
    (check : SpeculationCheck) (entry : EntryLocation) (cm : NRMap) : List Instr :=
  (List.range cfg.numFPR).foldl (fprFillStep g check entry cm) []

/-- One iteration of part 3's GPR fill loop (lines 1120-1137). -/
def gprFillStep (g : Nat → NodeM) (check : SpeculationCheck)
    (entry : EntryLocation) (cm : NRMap) (acc : List Instr) (i : Nat) : List Instr :=
  match (entry.gprInfo i).nodeIndex with
  | none => acc
  | some n =>
    if (entry.gprInfo i).isSpilled then acc
    else
      let doFill :=
        match nrFind cm n with
        | some cr => (grFindInfo check cr).isSpilled
        | none => true
      if !doFill then acc
      else if (entry.gprInfo i).format = .integer then acc ++ fillInt32ToInteger g n i
      else acc ++ fillToJS g n i

/-- Part 3, GPR fill pass (lines 1119-1137). -/
def bridgeGprFillPass (cfg : RegConfig) (g : Nat → NodeM)
    (check : SpeculationCheck) (entry : EntryLocation) (cm : NRMap) : List Instr :=
  (List.range cfg.numGPR).foldl (gprFillStep g check entry cm) []

/-- The speculation-recovery pre-pass of the bridging variant (lines 878-905):
for `SpeculativeAdd` the rebox is emitted only when the exit-side format of
`dest` is not `DataFormatInteger` (lines 887-890). -/
def bridgePrePass (check : SpeculationCheck) : Option SpecRecovery → List Instr
  | some (.speculativeAdd src dest) =>
      [.sub32 src dest] ++
      (if (check.gprInfo dest).format ≠ .integer then [.orTTN dest] else [])
  | some (.booleanSpeculationCheck dest) => [.xorImm32 ValueFalseEnc dest]
  | none => []

/-- The scratch GPR chosen after discovery plus the GPR spill pass's
reclassification — the value `scratchGPR` holds at line 1013. -/
def bridgeScratchGPRFound (cfg : RegConfig) (g : Nat → NodeM)
    (check : SpeculationCheck) (entry : EntryLocation) : Option Nat :=
  (bridgeGprSpillPass cfg g check entry (bridgeDiscovery cfg check entry).entryMap
    ⟨initSRegs cfg, (bridgeDiscovery cfg check entry).scratchGPR, []⟩).scratchGPR

/-- Everything `jumpFromSpeculativeToNonSpeculative` emits before the
optional tag-mask restoration and the final jump. -/
def bridgeOpsBeforeRestore (cfg : RegConfig) (g : Nat → NodeM)
    (check : SpeculationCheck) (entry : EntryLocation)
    (recovery : Option SpecRecovery) : List Instr :=
  let d := bridgeDiscovery cfg check entry
  let gp := bridgeGprSpillPass cfg g check entry d.entryMap
    ⟨initSRegs cfg, d.scratchGPR, []⟩
  let fb := bridgeFallback gp.scratchGPR
  let fp := bridgeFprSpillPass cfg g check entry d.entryMap fb.1
    ⟨gp.regs, d.scratchFPR1, d.scratchFPR2, []⟩
  let nc := bridgeNonCyclingPass cfg check entry fp.regs fp.scratchFPR1 fp.scratchFPR2
  let cy := bridgeCyclingPass cfg check entry nc.regs fb.1 nc.scratchFPR1 nc.scratchFPR2
  bridgePrePass check recovery ++ gp.ops ++ fp.ops ++ nc.ops ++ cy.2 ++
    bridgeFprFillPass cfg g check entry d.checkMap ++
    bridgeGprFillPass cfg g check entry d.checkMap

/-- `JITCompiler::jumpFromSpeculativeToNonSpeculative` (lines 848-1144) in
full: recovery pre-pass; reverse maps and scratch discovery; part 1 spills
(with the tag-mask fallback between the GPR and FPR passes); part 2 chain and
cycle shuffling; part 3 fills; tag-mask restoration; jump to the entry. -/
def jumpFromSpeculativeToNonSpeculative (cfg : RegConfig) (g : Nat → NodeM)
    (check : SpeculationCheck) (entry : EntryLocation)
    (recovery : Option SpecRecovery) : List Instr :=
  bridgeOpsBeforeRestore cfg g check entry recovery ++
    (if (bridgeFallback (bridgeScratchGPRFound cfg g check entry)).2 then
       [Instr.moveImm TagMaskVal tagMaskRegId]
     else []) ++
    [Instr.jumpEntry]

/-! ## Well-formedness of register-map snapshots -/

/-- The node held at combined register index `k` of a snapshot. -/
def nodeAt (cfg : RegConfig) (m : SpeculationCheck) (k : Nat) : Option Nat :=
  if k < cfg.numGPR then (m.gprInfo k).nodeIndex
  else (m.fprInfo (k - cfg.numGPR)).nodeIndex

/-- Spec invariant 1: within one snapshot, no two physical registers hold the
same `logical_id`. -/
def nodesUniqueB (cfg : RegConfig) (m : SpeculationCheck) : Bool :=
  (List.range (cfg.numGPR + cfg.numFPR)).all (fun k1 =>
    (List.range (cfg.numGPR + cfg.numFPR)).all (fun k2 =>
      decide (k1 = k2) || decide (nodeAt cfg m k1 = none) ||
        decide (nodeAt cfg m k1 ≠ nodeAt cfg m k2)))

/-! ## Claims C1 and C2: a well-formed bridging exit on which the emitted
sequence destroys a live value.

Machine: 3 allocatable GPRs, 6 FPRs (the FPR count of the x86-64 target).
Logical values (all non-constant; node `n` lives in home slot `10 + n`):

* node 0: exit `gpr0` (boxed JS), entry `fpr0` (double) — a GPR→FPR chain link;
* node 1: exit `gpr2`, entry `gpr0` — extends that chain to `gpr2 → gpr0 → fpr0`;
* node 2: exit `fpr5` (double), entry `gpr1` (boxed) — the chain `fpr5 → gpr1`;
* nodes 3,4,5,6: the FPR cycle `fpr1 → fpr2 → fpr3 → fpr4 → fpr1`.

Every register live on either side, no value spilled; both snapshots satisfy
invariant 1.  Walking the source: the chain `fpr5 → gpr1` is processed first
(its tail `gpr1` has the lowest combined index), which legitimately frees
`fpr5` into `scratchFPR1`; processing `gpr2 → gpr0 → fpr0` then executes
lines 690-697 on `fpr0` — the chain *tail*, which has just received node 0's
value — storing it into `scratchFPR2`; the FPR cycle's length ≥ 3 case
(lines 744-751) therefore saves through `fpr0`, overwriting node 0's entry
value, which by then exists nowhere else (its exit register `gpr0` was
overwritten by the same chain, and it was never spilled). -/

def cfgC12 : RegConfig := ⟨3, 6⟩

def gC12 : Nat → NodeM := fun n => ⟨10 + n, false, 0, 0, 0⟩

def checkC12 : SpeculationCheck :=
  { gprInfo := fun i =>
      if i = 0 then ⟨some 0, .js, false⟩
      else if i = 2 then ⟨some 1, .js, false⟩
      else ⟨none, .js, false⟩,
    fprInfo := fun i =>
      if i = 1 then ⟨some 3, .double, false⟩
      else if i = 2 then ⟨some 4, .double, false⟩
      else if i = 3 then ⟨some 5, .double, false⟩
      else if i = 4 then ⟨some 6, .double, false⟩
      else if i = 5 then ⟨some 2, .double, false⟩
      else ⟨none, .js, false⟩ }

def entryC12 : EntryLocation :=
  { gprInfo := fun i =>
      if i = 0 then ⟨some 1, .js, false⟩
      else if i = 1 then ⟨some 2, .js, false⟩
      else ⟨none, .js, false⟩,
    fprInfo := fun i =>
      if i = 0 then ⟨some 0, .double, false⟩
      else if i = 1 then ⟨some 6, .double, false⟩
      else if i = 2 then ⟨some 3, .double, false⟩
      else if i = 3 then ⟨some 4, .double, false⟩
      else if i = 4 then ⟨some 5, .double, false⟩
      else ⟨none, .js, false⟩ }

/-- An arbitrary conversion oracle; the failing run contains no
data-dependent conversion, so its values are never consulted. -/
def oC12 : Oracle := ⟨fun _ => none, fun _ => 0, fun _ => 0⟩

/-- The initial machine state matching the exit snapshot: distinctive marker
bit-patterns per live register, the tag-mask register holding its reserved
constant, memory and scratch buffer zeroed. -/
def sC12 : MState :=
  { gprs := fun i => if i = 0 then 100 else if i = 2 then 300
                     else if i = tagMaskRegId then TagMaskVal else 0,
    fprs := fun i => if i = 1 then 555 else if i = 2 then 600
                     else if i = 3 then 601 else if i = 4 then 602
                     else if i = 5 then 777 else 0,
    mem := fun _ => 0, scratchBuf := fun _ => 0, counter := 0 }

/-- The sequence the source emits for this exit. -/
def emittedC12 : List Instr :=
  jumpFromSpeculativeToNonSpeculative cfgC12 gC12 checkC12 entryC12 none

/-- C1: "for every well-formed exit, and for every logical value live on both
the exit side and the entry side, executing the emitted sequence leaves, in
that value's entry location, a value bit-equal to its exit value modulo
representation tag equivalence."  The code violates this: on the well-formed
exit above (both snapshots satisfy invariant 1), node 0 is live on both sides
(exit `gpr0`, holding boxed bits 100; entry `fpr0`, expecting the unboxed
double `wadd 100 TagTypeNumber`), yet running the emitted sequence leaves
`fpr0` holding 555 — node 3's bit-pattern, equal to no tag-representation
variant of node 0's exit value.  The theorem also pins the whole emitted
sequence, so the destruction can be traced: operation 4 (`moveDouble 1 0`,
the cycle's save into `scratchFPR2 = fpr0`) overwrites the value delivered by
operation 2 (`unboxDouble 0 0`). -/
theorem c1_value_preservation_violated :
    nodesUniqueB cfgC12 checkC12 = true ∧
    nodesUniqueB cfgC12 entryC12 = true ∧
    (checkC12.gprInfo 0).nodeIndex = some 0 ∧
    (entryC12.fprInfo 0).nodeIndex = some 0 ∧
    emittedC12 =
      [.boxDouble 5 1, .unboxDouble 0 0, .move 2 0, .moveDouble 1 0,
       .moveDouble 4 1, .moveDouble 3 4, .moveDouble 2 3, .moveDouble 0 2,
       .moveImm TagMaskVal tagMaskRegId, .jumpEntry] ∧
    (runI oC12 sC12 emittedC12).fprs 0 = 555 ∧
    sC12.gprs 0 = 100 ∧
    ([100, wadd 100 TagTypeNumber, wor 100 TagTypeNumber, wsub 100 TagTypeNumber,
      low32 100].all (fun v => v ≠ 555)) = true := by
  decide

/-- C2: "at every intermediate point of the emitted sequence every live
logical_id is still recoverable from some register or slot; no register
holding a live value is overwritten before that value's last read."  The code
violates this: after the first four operations of the sequence for the exit
above, operation 4 (`moveDouble 1 0`) has just overwritten `fpr0`, which held
the live value of node 0 (the entry side reads node 0 from `fpr0` after the
jump).  At that intermediate point no representation of node 0's value
(boxed 100, unboxed, or-tagged, bias-boxed, or low 32 bits) is held by any
register, memory is untouched (all slots hold 0), and no representation
equals 0 — the value is unrecoverable. -/
theorem c2_live_value_destroyed :
    (entryC12.fprInfo 0).nodeIndex = some 0 ∧
    emittedC12.take 4 =
      [.boxDouble 5 1, .unboxDouble 0 0, .move 2 0, .moveDouble 1 0] ∧
    (runI oC12 sC12 (emittedC12.take 4)).mem = sC12.mem ∧
    (runI oC12 sC12 (emittedC12.take 4)).scratchBuf = sC12.scratchBuf ∧
    (((List.range cfgC12.numGPR).map (runI oC12 sC12 (emittedC12.take 4)).gprs ++
      (List.range cfgC12.numFPR).map (runI oC12 sC12 (emittedC12.take 4)).fprs ++
      [(runI oC12 sC12 (emittedC12.take 4)).gprs tagMaskRegId, 0]).all (fun x =>
        [100, wadd 100 TagTypeNumber, wor 100 TagTypeNumber,
         wsub 100 TagTypeNumber, low32 100].all (fun v => x ≠ v))) = true := by
  exact ⟨by decide, by decide, rfl, rfl, by decide⟩

/-! ## Claim C7: the recovery pre-pass for `SpeculativeAdd` -/

/-- A check snapshot whose GPR 1 holds node 5 as a raw `DataFormatInteger`:
the bridging pre-pass then skips the rebox (source lines 887-890). -/
def checkC7 : SpeculationCheck :=
  { gprInfo := fun i => if i = 1 then ⟨some 5, .integer, false⟩ else ⟨none, .js, false⟩,
    fprInfo := fun _ => ⟨none, .js, false⟩ }

/-- C7, counterexample: the claim says the `SpeculativeAdd` pre-pass is a
32-bit subtract *followed by a rebox* in both variants.  In the bridging
variant with `dest`'s exit format `DataFormatInteger`, the emitted pre-pass is
the bare subtract — no rebox. -/
theorem c7_counterexample :
    bridgePrePass checkC7 (some (.speculativeAdd 0 1)) = [.sub32 0 1] ∧
    bridgePrePass checkC7 (some (.speculativeAdd 0 1)) ≠ [.sub32 0 1, .orTTN 1] := by
  decide

/-- C7, amended: for an `UndoSpeculativeAdd` recovery the OSR variant always
emits the 32-bit subtract followed by the integer-tag rebox (and records
`dest` as already boxed), leaving `dest` holding the reboxed 32-bit
difference; the bridging variant emits the subtract followed by the rebox
exactly when `dest`'s exit-side format is not `DataFormatInteger`. -/
theorem c7_amended (src dest : Nat) (check : SpeculationCheck) (o : Oracle)
    (s : MState) :
    osrRecoveryPrePass (some (.speculativeAdd src dest)) =
      ([.sub32 src dest, .orTTN dest], some dest) ∧
    (runI o s (osrRecoveryPrePass (some (.speculativeAdd src dest))).1).gprs dest =
      wor ((low32 (s.gprs dest) + (W32 - low32 (s.gprs src))) % W32) TagTypeNumber ∧
    bridgePrePass check (some (.speculativeAdd src dest)) =
      [.sub32 src dest] ++
        (if (check.gprInfo dest).format = .integer then [] else [.orTTN dest]) := by
  refine ⟨rfl, ?_, ?_⟩
  · simp [osrRecoveryPrePass, runI, stepI, updN]
  · by_cases h : (check.gprInfo dest).format = .integer <;> simp [bridgePrePass, h]

/-! ## Claim C10: the last-set-operand load of the OSR emitter -/

/-- C10: in the OSR emitter, the load of the last-set operand's home slot
into the cached result register is emitted iff `m_lastSetOperand` differs
from the sentinel `std::numeric_limits<int>::max()`; with the sentinel the
step emits nothing and leaves the machine state (in particular the cached
result register) exactly as the preceding steps left it, and otherwise it
loads the home slot into the cached result register. -/
theorem c10_last_set_operand (e : OSRExitM) (o : Oracle) (s : MState) :
    osrStep12 e = (if e.lastSetOperand = intMaxSentinel then []
                   else [.loadSlot e.lastSetOperand cachedResultRegister]) ∧
    runI o s (osrStep12 e) =
      (if e.lastSetOperand = intMaxSentinel then s
       else { s with gprs := updN s.gprs cachedResultRegister
                               (s.mem e.lastSetOperand) }) := by
  by_cases h : e.lastSetOperand = intMaxSentinel <;>
    simp [osrStep12, h, runI, stepI]

/-! ## Claim C8: the integer-reboxing step of the OSR emitter -/

/-- Whether a recovery's technique is `UnboxedInt32InGPR`. -/
def isUnboxedB : VRec → Bool
  | .unboxedInt32InGPR _ => true
  | _ => false

theorem classifyStep_haveUnboxed (e : OSRExitM) (st : ClassifyState) (r : VRec) :
    (classifyStep e st r).haveUnboxedInt32s = (st.haveUnboxedInt32s || isUnboxedB r) := by
  cases r <;> simp only [classifyStep, isUnboxedB, Bool.or_false, Bool.or_true] <;>
    (repeat' split) <;> rfl

theorem foldl_classify_haveUnboxed (e : OSRExitM) (l : List VRec) (st : ClassifyState) :
    (l.foldl (classifyStep e) st).haveUnboxedInt32s =
      (st.haveUnboxedInt32s || l.any isUnboxedB) := by
  induction l generalizing st with
  | nil => simp
  | cons r t ih => simp [List.foldl_cons, ih, classifyStep_haveUnboxed, Bool.or_assoc]

/-- The per-recovery characterisation of step 4's output: an `orPtr` of the
tag bits for an un-already-boxed `UnboxedInt32InGPR`, nothing otherwise. -/
def osrStep4Spec (ab : Option Nat) (r : VRec) : Option Instr :=
  match r with
  | .unboxedInt32InGPR g => if some g ≠ ab then some (.orTTN g) else none
  | _ => none

theorem osrStep4_foldl (ab : Option Nat) (l : List VRec) (acc : List Instr) :
    l.foldl (osrStep4Body ab) acc = acc ++ l.filterMap (osrStep4Spec ab) := by
  induction l generalizing acc with
  | nil => simp
  | cons r t ih =>
      rw [List.foldl_cons, List.filterMap_cons]
      cases r with
      | unboxedInt32InGPR g =>
          simp only [osrStep4Body, osrStep4Spec]
          by_cases hab : some g ≠ ab
          · rw [if_pos hab, if_pos hab, ih]
            simp [List.append_assoc]
          · rw [if_neg hab, if_neg hab, ih]
      | inGPR g => simp only [osrStep4Body, osrStep4Spec]; exact ih acc
      | inFPR f => simp only [osrStep4Body, osrStep4Spec]; exact ih acc
      | displacedInRegisterFile v => simp only [osrStep4Body, osrStep4Spec]; exact ih acc
      | constantRec c => simp only [osrStep4Body, osrStep4Spec]; exact ih acc
      | alreadyInRegisterFile => simp only [osrStep4Body, osrStep4Spec]; exact ih acc

theorem filterMap_no_unboxed (ab : Option Nat) (l : List VRec)
    (h : ∀ r ∈ l, isUnboxedB r = false) :
    l.filterMap (osrStep4Spec ab) = [] := by
  induction l with
  | nil => rfl
  | cons r t ih =>
      have h1 := h r (List.mem_cons_self r t)
      have h2 : ∀ x ∈ t, isUnboxedB x = false :=
        fun x hx => h x (List.mem_cons_of_mem r hx)
      cases r with
      | unboxedInt32InGPR g => simp [isUnboxedB] at h1
      | inGPR g => simp [List.filterMap_cons, osrStep4Spec, ih h2]
      | inFPR f => simp [List.filterMap_cons, osrStep4Spec, ih h2]
      | displacedInRegisterFile v => simp [List.filterMap_cons, osrStep4Spec, ih h2]
      | constantRec c => simp [List.filterMap_cons, osrStep4Spec, ih h2]
      | alreadyInRegisterFile => simp [List.filterMap_cons, osrStep4Spec, ih h2]

/-- C8: the OSR integer-reboxing step emits a tag-bits `or` for exactly the
recoveries whose technique is `UnboxedInt32InGPR` and whose GPR is not the
register already boxed by the recovery pre-pass, in recovery order, and
nothing for any other recovery. -/
theorem c8_rebox_exactly (e : OSRExitM) (ab : Option Nat) :
    osrStep4 e ab = e.recList.filterMap (osrStep4Spec ab) := by
  unfold osrStep4
  have hc : (classify e).haveUnboxedInt32s = e.recList.any isUnboxedB := by
    simpa [classifyInit] using foldl_classify_haveUnboxed e e.recList classifyInit
  by_cases h : (classify e).haveUnboxedInt32s
  · simp [h, osrStep4_foldl]
  · rw [hc] at h
    have hf : e.recList.any isUnboxedB = false := Bool.eq_false_iff.mpr h
    have hall : ∀ r ∈ e.recList, isUnboxedB r = false := by
      intro r hr
      cases hu : isUnboxedB r
      · rfl
      · exact absurd (List.any_eq_true.mpr ⟨r, hr, hu⟩) h
    rw [hc]
    simp [hf, filterMap_no_unboxed ab e.recList hall]

/-! ## Claim C3: the cycle-resolution cases -/

/-- A 1-GPR, 2-FPR machine for the 2-cycle counterexample. -/
def cfgC3 : RegConfig := ⟨1, 2⟩

/-- A `ShuffledRegister` state whose FPRs form the 2-cycle
`fpr0 → fpr1 → fpr0` (combined indices 1 and 2). -/
def regsC3 : Nat → SReg := fun i =>
  if i = 1 then ⟨.fprReg 0, some 2, true, true, false⟩
  else if i = 2 then ⟨.fprReg 1, some 1, true, true, false⟩
  else ⟨.gprReg 0, none, false, false, false⟩

/-- Snapshots giving both FPRs the `DataFormatDouble` format on both sides. -/
def checkC3 : SpeculationCheck :=
  { gprInfo := fun _ => ⟨none, .js, false⟩,
    fprInfo := fun i => ⟨some i, .double, false⟩ }

/-- C3, counterexample: the claim says a cycle of length 2 is resolved by
"one register swap followed by representation conversions on both endpoints".
On the FPR-FPR 2-cycle above (with scratch GPR 0 and no scratch FPR),
`handleCyclingPermutation` emits the three-move scratch-mediated double swap
of `swapWith`'s FPR/FPR branch (lines 596-608) — no `swap` operation at all. -/
theorem c3_counterexample :
    ((cycleWalk 1 (cfgC3.numGPR + cfgC3.numFPR + 1) regsC3 1 0).map
      (fun t => t.1)) = some 2 ∧
    (handleCycling cfgC3 checkC3 checkC3 regsC3 1 0 none none).2 =
      [.moveDoubleToPtr 0 0, .moveDouble 1 0, .movePtrToDouble 0 1] ∧
    ((handleCycling cfgC3 checkC3 checkC3 regsC3 1 0 none none).2.all (fun op =>
      match op with
      | .swapOp _ _ => false
      | _ => true)) = true := by
  decide

/-! ## Claim C4: the tag-mask scratch fallback -/

/-- A 2-GPR, 1-FPR machine. -/
def cfgC4 : RegConfig := ⟨2, 1⟩

def gC4 : Nat → NodeM := fun n => ⟨(20 : Int) + n, false, 0, 0, 0⟩

/-- Exit snapshot: GPR 0 holds node 0 (spilled), GPR 1 holds node 1. -/
def checkC4 : SpeculationCheck :=
  { gprInfo := fun i =>
      if i = 0 then ⟨some 0, .js, true⟩
      else if i = 1 then ⟨some 1, .js, false⟩
      else ⟨none, .js, false⟩,
    fprInfo := fun _ => ⟨none, .js, false⟩ }

/-- Entry snapshot: GPR 0 free, GPR 1 holds node 1; node 0 is dead at entry. -/
def entryC4 : EntryLocation :=
  { gprInfo := fun i =>
      if i = 1 then ⟨some 1, .js, false⟩ else ⟨none, .js, false⟩,
    fprInfo := fun _ => ⟨none, .js, false⟩ }

/-- C4, counterexample: the claim says that whenever *no GPR is free on both
the exit and entry sides*, the engine borrows the tag-mask register and emits
its restoration.  Above, no GPR is free on both sides (GPR 0 is exit-live,
GPR 1 is live on both), yet the spill pass reclassifies GPR 0 — exit-live but
entry-dead, holding a node the entry does not need — as the scratch
(lines 991-996), the restoration flag stays clear, and the emitted code
contains no tag-mask restoration. -/
theorem c4_counterexample :
    ((List.range cfgC4.numGPR).all (fun i =>
      !(decide ((checkC4.gprInfo i).nodeIndex = none) &&
        decide ((entryC4.gprInfo i).nodeIndex = none)))) = true ∧
    bridgeScratchGPRFound cfgC4 gC4 checkC4 entryC4 = some 0 ∧
    bridgeFallback (bridgeScratchGPRFound cfgC4 gC4 checkC4 entryC4) = (0, false) ∧
    (0 : Nat) ≠ tagMaskRegId ∧
    jumpFromSpeculativeToNonSpeculative cfgC4 gC4 checkC4 entryC4 none = [.jumpEntry] ∧
    Instr.moveImm TagMaskVal tagMaskRegId ∉
      jumpFromSpeculativeToNonSpeculative cfgC4 gC4 checkC4 entryC4 none := by
  decide

/-- C4, amended: if scratch discovery — the free-on-both-sides scan *and* the
spill pass's reclassification of GPRs holding exit values dead at entry —
finds no GPR, the engine takes the tag-mask register as the scratch GPR, sets
the restoration flag, and the emitted sequence ends with the instruction
restoring the tag-mask register's constant immediately before the final jump
to the entry; in particular a scratch GPR is always selected. -/
theorem c4_amended (cfg : RegConfig) (g : Nat → NodeM) (check : SpeculationCheck)
    (entry : EntryLocation) (recovery : Option SpecRecovery)
    (h : bridgeScratchGPRFound cfg g check entry = none) :
    bridgeFallback (bridgeScratchGPRFound cfg g check entry) = (tagMaskRegId, true) ∧
    jumpFromSpeculativeToNonSpeculative cfg g check entry recovery =
      bridgeOpsBeforeRestore cfg g check entry recovery ++
        [Instr.moveImm TagMaskVal tagMaskRegId, Instr.jumpEntry] := by
  constructor
  · rw [h]; rfl
  · simp [jumpFromSpeculativeToNonSpeculative, h, bridgeFallback]

/-! ## Claim C9: the identity bridging exit -/

/-- A 1-GPR, 1-FPR machine whose single GPR is live (same node, format and
spill state on both sides) and whose FPR is free. -/
def cfgC9 : RegConfig := ⟨1, 1⟩

def gC9 : Nat → NodeM := fun n => ⟨(30 : Int) + n, false, 0, 0, 0⟩

def checkC9 : SpeculationCheck :=
  { gprInfo := fun i =>
      if i = 0 then ⟨some 0, .js, false⟩ else ⟨none, .js, false⟩,
    fprInfo := fun _ => ⟨none, .js, false⟩ }

/-- Witness for `c4_amended`: a concrete fully live 1-GPR machine on which
scratch discovery indeed finds nothing. -/
theorem c4_amended_witness :
    bridgeScratchGPRFound cfgC9 gC9 checkC9 checkC9 = none ∧
    (bridgeFallback (bridgeScratchGPRFound cfgC9 gC9 checkC9 checkC9)
      = (tagMaskRegId, true) ∧
    jumpFromSpeculativeToNonSpeculative cfgC9 gC9 checkC9 checkC9 none =
      bridgeOpsBeforeRestore cfgC9 gC9 checkC9 checkC9 none ++
        [Instr.moveImm TagMaskVal tagMaskRegId, Instr.jumpEntry]) :=
  ⟨by decide, c4_amended cfgC9 gC9 checkC9 checkC9 none (by decide)⟩

/-- C9, counterexample: the claim says an identity exit emits *no*
instructions beyond the recovery pre-pass.  On the identity exit above
(entry snapshot literally equal to the exit snapshot, no recovery, snapshots
well-formed), every GPR is live, so scratch discovery finds nothing, the
engine borrows the tag-mask register, and the emitted sequence contains the
tag-mask restoration move — one instruction beyond the (empty) pre-pass and
the final jump. -/
theorem c9_counterexample :
    nodesUniqueB cfgC9 checkC9 = true ∧
    bridgePrePass checkC9 none = [] ∧
    jumpFromSpeculativeToNonSpeculative cfgC9 gC9 checkC9 checkC9 none =
      [.moveImm TagMaskVal tagMaskRegId, .jumpEntry] ∧
    jumpFromSpeculativeToNonSpeculative cfgC9 gC9 checkC9 checkC9 none ≠
      bridgePrePass checkC9 none ++ [.jumpEntry] := by
  decide

/-! ## Claim C5: the scratch-buffer size -/

/-- Whether a recovery's technique is `DisplacedInRegisterFile`. -/
def isDisplacedB : VRec → Bool
  | .displacedInRegisterFile _ => true
  | _ => false

/-- The number of displaced value recoveries of an exit. -/
def displacedCount (e : OSRExitM) : Nat := e.recList.countP isDisplacedB

/-- The guard under which a displaced source slot is poisoned (lines 188-192):
the slot is a variable's home and that variable is currently live in a
physical register. -/
def poisonCond (e : OSRExitM) (v : Int) : Bool :=
  decide (v < (e.varRecs.length : Int)) && varTechniqueLive (e.varRecs.get? v.toNat)

/-- Whether recovery `r` poisons slot `v`. -/
def dispHit (e : OSRExitM) (r : VRec) (v : Int) : Bool :=
  match r with
  | .displacedInRegisterFile v2 => decide (v2 = v) && poisonCond e v2
  | _ => false

/-- The spec-side poisoned count: the number of destination virtual registers
`vr < |m_variables|` that are the source slot of some displaced recovery while
`m_variables[vr]` is live in a physical register — each counted once. -/
def poisonedSpec (e : OSRExitM) : Nat :=
  ((List.range e.varRecs.length).filter (fun (k : Nat) =>
    e.recList.any (fun r =>
      match r with
      | VRec.displacedInRegisterFile v2 => decide (v2 = (k : Int))
      | _ => false) && varTechniqueLive (e.varRecs.get? k))).length

theorem classifyStep_displaced_eq (e : OSRExitM) (st : ClassifyState) (v2 : Int) :
    classifyStep e st (.displacedInRegisterFile v2) =
      (if poisonCond e v2 && !st.poisoned v2 then
        { st with nDisplaced := st.nDisplaced + 1,
                  poisoned := updB st.poisoned v2,
                  nPoisoned := st.nPoisoned + 1 }
       else { st with nDisplaced := st.nDisplaced + 1 }) := by
  simp only [classifyStep, poisonCond]
  by_cases h1 : v2 < (e.varRecs.length : Int) <;>
    by_cases h2 : varTechniqueLive (e.varRecs.get? v2.toNat) = true <;>
      by_cases h3 : st.poisoned v2 = true <;>
        simp [h1, h2, h3]

theorem classifyStep_nDisplaced (e : OSRExitM) (st : ClassifyState) (r : VRec) :
    (classifyStep e st r).nDisplaced =
      st.nDisplaced + (if isDisplacedB r then 1 else 0) := by
  cases r with
  | displacedInRegisterFile v2 =>
      rw [classifyStep_displaced_eq]
      split <;> simp [isDisplacedB]
  | inGPR gr => simp [classifyStep, isDisplacedB]
  | unboxedInt32InGPR gr => simp [classifyStep, isDisplacedB]
  | inFPR fr => simp [classifyStep, isDisplacedB]
  | constantRec c =>
      simp only [classifyStep, isDisplacedB]
      split <;> simp
  | alreadyInRegisterFile => simp [classifyStep, isDisplacedB]

theorem classifyStep_poisoned (e : OSRExitM) (st : ClassifyState) (r : VRec)
    (v : Int) :
    (classifyStep e st r).poisoned v = (st.poisoned v || dispHit e r v) := by
  cases r with
  | displacedInRegisterFile v2 =>
      rw [classifyStep_displaced_eq]
      by_cases hv : v2 = v <;>
        by_cases hc : poisonCond e v2 = true <;>
          by_cases hp : st.poisoned v2 = true <;>
            simp [dispHit, hv, hc, hp, updB] <;>
              simp_all [updB] <;> omega
  | inGPR gr => simp [classifyStep, dispHit]
  | unboxedInt32InGPR gr => simp [classifyStep, dispHit]
  | inFPR fr => simp [classifyStep, dispHit]
  | constantRec c =>
      simp only [classifyStep, dispHit]
      split <;> simp
  | alreadyInRegisterFile => simp [classifyStep, dispHit]

/-- Whether any recovery of `l` poisons slot `v`. -/
def qualifiesIn (e : OSRExitM) (l : List VRec) (v : Int) : Bool :=
  l.any (fun r => dispHit e r v)

theorem foldl_classify_poisoned (e : OSRExitM) (l : List VRec)
    (st : ClassifyState) (v : Int) :
    (l.foldl (classifyStep e) st).poisoned v =
      (st.poisoned v || qualifiesIn e l v) := by
  induction l generalizing st with
  | nil => simp [qualifiesIn]
  | cons r t ih =>
      rw [List.foldl_cons, ih]
      simp [qualifiesIn, classifyStep_poisoned, Bool.or_assoc]

theorem foldl_classify_nDisplaced (e : OSRExitM) (l : List VRec)
    (st : ClassifyState) :
    (l.foldl (classifyStep e) st).nDisplaced = st.nDisplaced + l.countP isDisplacedB := by
  induction l generalizing st with
  | nil => simp
  | cons r t ih =>
      rw [List.foldl_cons, ih, classifyStep_nDisplaced]
      by_cases h : isDisplacedB r <;> simp [h, List.countP_cons] <;> omega

/-- Inserting a fresh member below `n` into a boolean predicate adds exactly
one to the filtered count over `range n`. -/
theorem filter_length_update (n m : Nat) (p : Nat → Bool) (hm : m < n)
    (hp : p m = false) :
    ((List.range n).filter (fun k => decide (k = m) || p k)).length =
      ((List.range n).filter p).length + 1 := by
  induction n with
  | zero => omega
  | succ n ih =>
      rw [List.range_succ, List.filter_append, List.filter_append]
      by_cases hmn : m = n
      · subst hmn
        have hcong : ∀ k ∈ List.range m, (decide (k = m) || p k) = p k := by
          intro k hk
          have : k < m := List.mem_range.mp hk
          simp [Nat.ne_of_lt this]
        rw [List.filter_congr hcong]
        simp [hp]
      · have hm' : m < n := by omega
        rw [List.length_append, List.length_append, ih hm']
        have hnm : (decide (n = m) || p n) = p n := by
          have hne : ¬n = m := fun h => hmn h.symm
          simp [hne]
        simp only [List.filter_cons, List.filter_nil, hnm]
        cases hpn : p n <;> simp [hpn] <;> omega

theorem classify_count_inv (e : OSRExitM) (l : List VRec) (st : ClassifyState)
    (hwf : ∀ v : Int, VRec.displacedInRegisterFile v ∈ l → 0 ≤ v)
    (hcnt : st.nPoisoned =
      ((List.range e.varRecs.length).filter (fun (k : Nat) => st.poisoned (k : Int))).length) :
    (l.foldl (classifyStep e) st).nPoisoned =
      ((List.range e.varRecs.length).filter
        (fun (k : Nat) => (l.foldl (classifyStep e) st).poisoned (k : Int))).length := by
  induction l generalizing st with
  | nil => simpa using hcnt
  | cons r t ih =>
      rw [List.foldl_cons]
      refine ih _ (fun v hv => hwf v (List.mem_cons_of_mem r hv)) ?_
      cases r with
      | displacedInRegisterFile v2 =>
          have h0 : (0 : Int) ≤ v2 := hwf v2 (List.mem_cons_self _ _)
          rw [classifyStep_displaced_eq]
          by_cases hc : (poisonCond e v2 && !st.poisoned v2) = true
          · rw [if_pos hc]
            have hlt : v2 < (e.varRecs.length : Int) := by
              have := (Bool.and_eq_true _ _).mp hc
              have h1 := this.1
              simp only [poisonCond, Bool.and_eq_true, decide_eq_true_eq] at h1
              exact h1.1
            have hpf : st.poisoned v2 = false := by
              have := (Bool.and_eq_true _ _).mp hc
              simpa using this.2
            have hTn : v2.toNat < e.varRecs.length := by omega
            have hcast : ∀ k : Nat, ((k : Int) = v2) ↔ (k = v2.toNat) := by
              intro k
              omega
            have hcong : ∀ k ∈ List.range e.varRecs.length,
                (updB st.poisoned v2 (k : Int)) =
                  (decide (k = v2.toNat) || st.poisoned (k : Int)) := by
              intro k _
              simp only [updB]
              by_cases hk : (k : Int) = v2
              · have hkk : k = v2.toNat := (hcast k).mp hk
                rw [if_pos hk, hkk]
                simp
              · have hkk : ¬k = v2.toNat := fun hh => hk ((hcast k).mpr hh)
                rw [if_neg hk]
                simp [hkk]
            simp only
            rw [List.filter_congr hcong]
            have hpm : st.poisoned ((v2.toNat : Nat) : Int) = false := by
              have : ((v2.toNat : Nat) : Int) = v2 := by omega
              rw [this]; exact hpf
            rw [filter_length_update e.varRecs.length v2.toNat
                  (fun (k : Nat) => st.poisoned (k : Int)) hTn hpm]
            simp [hcnt]
          · rw [if_neg hc]
            simpa using hcnt
      | inGPR gr => simpa [classifyStep] using hcnt
      | unboxedInt32InGPR gr => simpa [classifyStep] using hcnt
      | inFPR fr => simpa [classifyStep] using hcnt
      | constantRec c =>
          simp only [classifyStep]
          split <;> simpa using hcnt
      | alreadyInRegisterFile => simpa [classifyStep] using hcnt

theorem qualifiesIn_range_eq (e : OSRExitM) (k : Nat)
    (hk : k < e.varRecs.length) :
    qualifiesIn e e.recList (k : Int) =
      (e.recList.any (fun r =>
        match r with
        | VRec.displacedInRegisterFile v2 => decide (v2 = (k : Int))
        | _ => false) && varTechniqueLive (e.varRecs.get? k)) := by
  unfold qualifiesIn
  induction e.recList with
  | nil => simp
  | cons r t ih =>
      rw [List.any_cons, List.any_cons, ih]
      have hhead : dispHit e r (k : Int) =
          ((match r with
            | VRec.displacedInRegisterFile v2 => decide (v2 = (k : Int))
            | _ => false) && varTechniqueLive (e.varRecs.get? k)) := by
        cases r with
        | displacedInRegisterFile v2 =>
            simp only [dispHit]
            by_cases hv : v2 = (k : Int)
            · have h1 : v2.toNat = k := by omega
              have h2 : v2 < (e.varRecs.length : Int) := by omega
              simp [hv, poisonCond, h1, h2, hk]
            · simp [hv]
        | inGPR gr => simp [dispHit]
        | unboxedInt32InGPR gr => simp [dispHit]
        | inFPR fr => simp [dispHit]
        | constantRec c => simp [dispHit]
        | alreadyInRegisterFile => simp [dispHit]
      rw [hhead, Bool.and_or_distrib_right]

/-- C5: the OSR emitter requests a scratch buffer of exactly
`poisoned + (displaced > #GPRs ? displaced : 0)` value-sized slots, where
`poisoned` counts — once each — the destination virtual registers that are
the source of some `DisplacedInRegisterFile` recovery while currently held
live in a physical register (`InGPR`, `UnboxedInt32InGPR` or `InFPR`), and
`displaced` counts the `DisplacedInRegisterFile` recoveries.  The hypothesis
is the source's own assertion that displaced source slots are non-negative
(line 179). -/
theorem c5_scratch_buffer_size (cfg : RegConfig) (e : OSRExitM)
    (hwf : ∀ v : Int, VRec.displacedInRegisterFile v ∈ e.recList → 0 ≤ v) :
    osrScratchSlots cfg e = poisonedSpec e +
      (if cfg.numGPR < displacedCount e then displacedCount e else 0) := by
  have hd : (classify e).nDisplaced = displacedCount e := by
    simpa [classifyInit, displacedCount] using
      foldl_classify_nDisplaced e e.recList classifyInit
  have hp : (classify e).nPoisoned = poisonedSpec e := by
    have h1 := classify_count_inv e e.recList classifyInit hwf (by simp [classifyInit])
    have h2 : ∀ k ∈ List.range e.varRecs.length,
        ((e.recList.foldl (classifyStep e) classifyInit).poisoned (k : Int)) =
          (e.recList.any (fun r =>
            match r with
            | VRec.displacedInRegisterFile v2 => decide (v2 = (k : Int))
            | _ => false) && varTechniqueLive (e.varRecs.get? k)) := by
      intro k hk
      rw [foldl_classify_poisoned]
      simp only [classifyInit, Bool.false_or]
      exact qualifiesIn_range_eq e k (List.mem_range.mp hk)
    unfold classify at h1 ⊢
    rw [h1, List.filter_congr h2]
    rfl
  unfold osrScratchSlots
  rw [hd, hp]
  by_cases h : displacedCount e ≤ cfg.numGPR
  · rw [if_pos h, if_neg (by omega)]
  · rw [if_neg h, if_pos (by omega)]

/-- Witness for `c5_scratch_buffer_size`: an exit with two displaced
recoveries (slots 0 and 1), variable 0 live in a GPR (so slot 0 is poisoned)
and variable 1 itself displaced, on a 1-GPR machine (forcing the staging
branch of the size formula). -/
theorem c5_witness :
    (∀ v : Int, VRec.displacedInRegisterFile v ∈
        (OSRExitM.mk [] [VRec.inGPR 0, VRec.displacedInRegisterFile 0,
          VRec.displacedInRegisterFile 1] 2147483647).recList → 0 ≤ v) ∧
    osrScratchSlots ⟨1, 1⟩
        (OSRExitM.mk [] [VRec.inGPR 0, VRec.displacedInRegisterFile 0,
          VRec.displacedInRegisterFile 1] 2147483647) =
      poisonedSpec (OSRExitM.mk [] [VRec.inGPR 0, VRec.displacedInRegisterFile 0,
          VRec.displacedInRegisterFile 1] 2147483647) +
        (if (1 : Nat) < displacedCount (OSRExitM.mk [] [VRec.inGPR 0,
            VRec.displacedInRegisterFile 0, VRec.displacedInRegisterFile 1]
            2147483647) then
          displacedCount (OSRExitM.mk [] [VRec.inGPR 0,
            VRec.displacedInRegisterFile 0, VRec.displacedInRegisterFile 1]
            2147483647)
        else 0) := by
  have hwf : ∀ v : Int, VRec.displacedInRegisterFile v ∈
      (OSRExitM.mk [] [VRec.inGPR 0, VRec.displacedInRegisterFile 0,
        VRec.displacedInRegisterFile 1] 2147483647).recList → 0 ≤ v := by
    intro v hv
    simp [OSRExitM.recList] at hv
    rcases hv with h | h <;> omega
  exact ⟨hwf, c5_scratch_buffer_size ⟨1, 1⟩ _ hwf⟩

/-! ## Claim C6: resolution of displaced virtual registers -/

/-- The (source slot, destination slot) pairs of the displaced recoveries
among the given recovery indices, in index order. -/
def pairsOfIdx (e : OSRExitM) (il : List Nat) : List (Int × Int) :=
  il.filterMap (fun i =>
    match (e.recList.get? i : Option VRec) with
    | some (.displacedInRegisterFile vr) => some (vr, e.operandForIndex i)
    | _ => none)

/-- The (source slot, destination slot) pairs of all displaced recoveries of
an exit, in recovery index order. -/
def displacedPairs (e : OSRExitM) : List (Int × Int) :=
  pairsOfIdx e (List.range e.recList.length)

/-- A run of loads of the sources into consecutive GPRs starting at `k`. -/
def loadSeq : List (Int × Int) → Nat → List Instr
  | [], _ => []
  | p :: rest, k => .loadSlot p.1 k :: loadSeq rest (k + 1)

/-- A run of stores of consecutive GPRs starting at `k` to the destinations. -/
def storeSeq : List (Int × Int) → Nat → List Instr
  | [], _ => []
  | p :: rest, k => .storeSlot k p.2 :: storeSeq rest (k + 1)

/-- Staging of the sources through `regT0` into consecutive scratch-buffer
slots starting at `k`. -/
def stageInSeq : List (Int × Int) → Nat → List Instr
  | [], _ => []
  | p :: rest, k => .loadSlot p.1 0 :: .storeScratch 0 k :: stageInSeq rest (k + 1)

/-- Draining of consecutive scratch-buffer slots starting at `k` through
`regT0` into the destinations. -/
def stageOutSeq : List (Int × Int) → Nat → List Instr
  | [], _ => []
  | p :: rest, k => .loadScratch k 0 :: .storeSlot 0 p.2 :: stageOutSeq rest (k + 1)

theorem step8_load_fold (e : OSRExitM) (il : List Nat) (acc : List Instr)
    (k : Nat) :
    il.foldl (step8LoadBody e) (acc, k) =
      (acc ++ loadSeq (pairsOfIdx e il) k, k + (pairsOfIdx e il).length) := by
  induction il generalizing acc k with
  | nil => simp [pairsOfIdx, loadSeq]
  | cons i t ih =>
      rw [List.foldl_cons]
      unfold pairsOfIdx
      rw [List.filterMap_cons]
      cases hg : (e.recList.get? i : Option VRec) with
      | none => simp only [step8LoadBody, hg]; exact ih acc k
      | some r =>
          cases r with
          | displacedInRegisterFile vr =>
              simp only [step8LoadBody, hg]
              rw [ih]
              unfold pairsOfIdx
              simp only [Prod.mk.injEq, loadSeq, List.append_assoc,
                List.singleton_append, List.length_cons]
              refine ⟨by simp [List.append_assoc], by omega⟩
          | inGPR gr => simp only [step8LoadBody, hg]; exact ih acc k
          | unboxedInt32InGPR gr => simp only [step8LoadBody, hg]; exact ih acc k
          | inFPR fr => simp only [step8LoadBody, hg]; exact ih acc k
          | constantRec c => simp only [step8LoadBody, hg]; exact ih acc k
          | alreadyInRegisterFile => simp only [step8LoadBody, hg]; exact ih acc k

theorem step8_store_fold (e : OSRExitM) (il : List Nat) (acc : List Instr)
    (k : Nat) :
    il.foldl (step8StoreBody e) (acc, k) =
      (acc ++ storeSeq (pairsOfIdx e il) k, k + (pairsOfIdx e il).length) := by
  induction il generalizing acc k with
  | nil => simp [pairsOfIdx, storeSeq]
  | cons i t ih =>
      rw [List.foldl_cons]
      unfold pairsOfIdx
      rw [List.filterMap_cons]
      cases hg : (e.recList.get? i : Option VRec) with
      | none => simp only [step8StoreBody, hg]; exact ih acc k
      | some r =>
          cases r with
          | displacedInRegisterFile vr =>
              simp only [step8StoreBody, hg]
              rw [ih]
              unfold pairsOfIdx
              simp only [Prod.mk.injEq, storeSeq, List.append_assoc,
                List.singleton_append, List.length_cons]
              refine ⟨by simp [List.append_assoc], by omega⟩
          | inGPR gr => simp only [step8StoreBody, hg]; exact ih acc k
          | unboxedInt32InGPR gr => simp only [step8StoreBody, hg]; exact ih acc k
          | inFPR fr => simp only [step8StoreBody, hg]; exact ih acc k
          | constantRec c => simp only [step8StoreBody, hg]; exact ih acc k
          | alreadyInRegisterFile => simp only [step8StoreBody, hg]; exact ih acc k

theorem step8_stage_in_fold (e : OSRExitM) (il : List Nat) (acc : List Instr)
    (k : Nat) :
    il.foldl (step8StageInBody e) (acc, k) =
      (acc ++ stageInSeq (pairsOfIdx e il) k, k + (pairsOfIdx e il).length) := by
  induction il generalizing acc k with
  | nil => simp [pairsOfIdx, stageInSeq]
  | cons i t ih =>
      rw [List.foldl_cons]
      unfold pairsOfIdx
      rw [List.filterMap_cons]
      cases hg : (e.recList.get? i : Option VRec) with
      | none => simp only [step8StageInBody, hg]; exact ih acc k
      | some r =>
          cases r with
          | displacedInRegisterFile vr =>
              simp only [step8StageInBody, hg]
              rw [ih]
              unfold pairsOfIdx
              simp only [Prod.mk.injEq, stageInSeq, List.append_assoc,
                List.cons_append, List.nil_append, List.length_cons]
              refine ⟨by simp [List.append_assoc], by omega⟩
          | inGPR gr => simp only [step8StageInBody, hg]; exact ih acc k
          | unboxedInt32InGPR gr => simp only [step8StageInBody, hg]; exact ih acc k
          | inFPR fr => simp only [step8StageInBody, hg]; exact ih acc k
          | constantRec c => simp only [step8StageInBody, hg]; exact ih acc k
          | alreadyInRegisterFile => simp only [step8StageInBody, hg]; exact ih acc k

theorem step8_stage_out_fold (e : OSRExitM) (il : List Nat) (acc : List Instr)
    (k : Nat) :
    il.foldl (step8StageOutBody e) (acc, k) =
      (acc ++ stageOutSeq (pairsOfIdx e il) k, k + (pairsOfIdx e il).length) := by
  induction il generalizing acc k with
  | nil => simp [pairsOfIdx, stageOutSeq]
  | cons i t ih =>
      rw [List.foldl_cons]
      unfold pairsOfIdx
      rw [List.filterMap_cons]
      cases hg : (e.recList.get? i : Option VRec) with
      | none => simp only [step8StageOutBody, hg]; exact ih acc k
      | some r =>
          cases r with
          | displacedInRegisterFile vr =>
              simp only [step8StageOutBody, hg]
              rw [ih]
              unfold pairsOfIdx
              simp only [Prod.mk.injEq, stageOutSeq, List.append_assoc,
                List.cons_append, List.nil_append, List.length_cons]
              refine ⟨by simp [List.append_assoc], by omega⟩
          | inGPR gr => simp only [step8StageOutBody, hg]; exact ih acc k
          | unboxedInt32InGPR gr => simp only [step8StageOutBody, hg]; exact ih acc k
          | inFPR fr => simp only [step8StageOutBody, hg]; exact ih acc k
          | constantRec c => simp only [step8StageOutBody, hg]; exact ih acc k
          | alreadyInRegisterFile => simp only [step8StageOutBody, hg]; exact ih acc k

theorem run_loadSeq (o : Oracle) (pairs : List (Int × Int)) (k : Nat)
    (s : MState) :
    (runI o s (loadSeq pairs k)).mem = s.mem ∧
    (runI o s (loadSeq pairs k)).scratchBuf = s.scratchBuf ∧
    (∀ i : Nat, i < k → (runI o s (loadSeq pairs k)).gprs i = s.gprs i) ∧
    (∀ j : Nat, j < pairs.length →
      (runI o s (loadSeq pairs k)).gprs (k + j) = s.mem (pairs.getD j (0, 0)).1) := by
  induction pairs generalizing k s with
  | nil => exact ⟨rfl, rfl, fun i _ => rfl, fun j hj => absurd hj (by simp)⟩
  | cons p rest ih =>
      rw [loadSeq, runI_cons]
      obtain ⟨hm, hsc, hpre, hg⟩ := ih (k + 1) (stepI o s (.loadSlot p.1 k))
      refine ⟨hm, hsc, ?_, ?_⟩
      · intro i hi
        rw [hpre i (by omega)]
        simp only [stepI, updN]
        rw [if_neg (by omega)]
      · intro j hj
        cases j with
        | zero =>
            have h0 := hpre k (by omega)
            simpa [stepI, updN] using h0
        | succ j =>
            have : k + (j + 1) = (k + 1) + j := by omega
            rw [this, hg j (by simpa using hj)]
            rfl

theorem run_storeSeq (o : Oracle) (pairs : List (Int × Int)) (k : Nat)
    (s : MState) (hnd : pairs.Pairwise (fun a b => a.2 ≠ b.2)) :
    (runI o s (storeSeq pairs k)).gprs = s.gprs ∧
    (runI o s (storeSeq pairs k)).scratchBuf = s.scratchBuf ∧
    (∀ z : Int, (∀ p ∈ pairs, z ≠ p.2) →
      (runI o s (storeSeq pairs k)).mem z = s.mem z) ∧
    (∀ j : Nat, j < pairs.length →
      (runI o s (storeSeq pairs k)).mem (pairs.getD j (0, 0)).2 = s.gprs (k + j)) := by
  induction pairs generalizing k s with
  | nil => exact ⟨rfl, rfl, fun z _ => rfl, fun j hj => absurd hj (by simp)⟩
  | cons p rest ih =>
      rw [storeSeq, runI_cons]
      obtain ⟨hp2, hrest⟩ := List.pairwise_cons.mp hnd
      obtain ⟨hg, hsc, hmz, hmj⟩ := ih (k + 1) (stepI o s (.storeSlot k p.2)) hrest
      refine ⟨hg, hsc, ?_, ?_⟩
      · intro z hz
        rw [hmz z (fun q hq => hz q (List.mem_cons_of_mem p hq))]
        simp only [stepI, updZ]
        rw [if_neg (hz p (List.mem_cons_self p rest))]
      · intro j hj
        cases j with
        | zero =>
            have h0 := hmz p.2 (fun q hq => hp2 q hq)
            simpa [stepI, updZ] using h0
        | succ j =>
            have hk : k + (j + 1) = (k + 1) + j := by omega
            rw [List.getD_cons_succ, hk, hmj j (by simpa using hj)]
            rfl

theorem run_stageInSeq (o : Oracle) (pairs : List (Int × Int)) (k : Nat)
    (s : MState) :
    (runI o s (stageInSeq pairs k)).mem = s.mem ∧
    (∀ idx : Nat, idx < k →
      (runI o s (stageInSeq pairs k)).scratchBuf idx = s.scratchBuf idx) ∧
    (∀ j : Nat, j < pairs.length →
      (runI o s (stageInSeq pairs k)).scratchBuf (k + j) =
        s.mem (pairs.getD j (0, 0)).1) := by
  induction pairs generalizing k s with
  | nil => exact ⟨rfl, fun idx _ => rfl, fun j hj => absurd hj (by simp)⟩
  | cons p rest ih =>
      rw [stageInSeq, runI_cons, runI_cons]
      obtain ⟨hm, hpre, hsc⟩ :=
        ih (k + 1) (stepI o (stepI o s (.loadSlot p.1 0)) (.storeScratch 0 k))
      refine ⟨hm, ?_, ?_⟩
      · intro idx hidx
        rw [hpre idx (by omega)]
        simp only [stepI, updN]
        rw [if_neg (by omega)]
      · intro j hj
        cases j with
        | zero =>
            have h0 := hpre k (by omega)
            simpa [stepI, updN] using h0
        | succ j =>
            have hk : k + (j + 1) = (k + 1) + j := by omega
            rw [List.getD_cons_succ, hk, hsc j (by simpa using hj)]
            rfl

theorem run_stageOutSeq (o : Oracle) (pairs : List (Int × Int)) (k : Nat)
    (s : MState) (hnd : pairs.Pairwise (fun a b => a.2 ≠ b.2)) :
    (runI o s (stageOutSeq pairs k)).scratchBuf = s.scratchBuf ∧
    (∀ z : Int, (∀ p ∈ pairs, z ≠ p.2) →
      (runI o s (stageOutSeq pairs k)).mem z = s.mem z) ∧
    (∀ j : Nat, j < pairs.length →
      (runI o s (stageOutSeq pairs k)).mem (pairs.getD j (0, 0)).2 =
        s.scratchBuf (k + j)) := by
  induction pairs generalizing k s with
  | nil => exact ⟨rfl, fun z _ => rfl, fun j hj => absurd hj (by simp)⟩
  | cons p rest ih =>
      rw [stageOutSeq, runI_cons, runI_cons]
      obtain ⟨hp2, hrest⟩ := List.pairwise_cons.mp hnd
      obtain ⟨hsc, hmz, hmj⟩ :=
        ih (k + 1) (stepI o (stepI o s (.loadScratch k 0)) (.storeSlot 0 p.2)) hrest
      refine ⟨hsc, ?_, ?_⟩
      · intro z hz
        rw [hmz z (fun q hq => hz q (List.mem_cons_of_mem p hq))]
        simp only [stepI, updZ, updN]
        rw [if_neg (hz p (List.mem_cons_self p rest))]
      · intro j hj
        cases j with
        | zero =>
            have h0 := hmz p.2 (fun q hq => hp2 q hq)
            simpa [stepI, updZ, updN] using h0
        | succ j =>
            have hk : k + (j + 1) = (k + 1) + j := by omega
            rw [List.getD_cons_succ, hk, hmj j (by simpa using hj)]
            rfl

/-- `operandForIndex` is strictly monotone: argument operands sit strictly
below the (nonnegative) local operands, and each family is increasing. -/
theorem operandForIndex_lt (e : OSRExitM) {i j : Nat} (hij : i < j) :
    e.operandForIndex i < e.operandForIndex j := by
  unfold OSRExitM.operandForIndex
  by_cases h1 : i < e.argRecs.length <;> by_cases h2 : j < e.argRecs.length <;>
    simp only [h1, h2, if_pos, if_neg, if_true, if_false] <;> omega

theorem pairsOfIdx_mem (e : OSRExitM) (il : List Nat) (b : Int × Int)
    (hb : b ∈ pairsOfIdx e il) : ∃ j ∈ il, b.2 = e.operandForIndex j := by
  unfold pairsOfIdx at hb
  rcases List.mem_filterMap.mp hb with ⟨j, hj, hF⟩
  refine ⟨j, hj, ?_⟩
  rcases hg : (e.recList.get? j : Option VRec) with _ | r
  · rw [hg] at hF
    simp at hF
  · rw [hg] at hF
    cases r with
    | displacedInRegisterFile vr =>
        simp only [Option.some.injEq] at hF
        rw [← hF]
    | inGPR gr => simp at hF
    | unboxedInt32InGPR gr => simp at hF
    | inFPR fr => simp at hF
    | constantRec c => simp at hF
    | alreadyInRegisterFile => simp at hF

theorem pairsOfIdx_snd_pairwise (e : OSRExitM) (il : List Nat)
    (h : il.Pairwise (· < ·)) :
    (pairsOfIdx e il).Pairwise (fun a b => a.2 ≠ b.2) := by
  induction il with
  | nil => constructor
  | cons i t ih =>
      obtain ⟨hi, ht⟩ := List.pairwise_cons.mp h
      unfold pairsOfIdx
      rw [List.filterMap_cons]
      have htail := ih ht
      cases hg : (e.recList.get? i : Option VRec) with
      | none => simpa [pairsOfIdx] using htail
      | some r =>
          cases r with
          | displacedInRegisterFile vr =>
              simp only
              refine List.Pairwise.cons ?_ (by simpa [pairsOfIdx] using htail)
              intro b hb
              obtain ⟨j, hj, hbj⟩ := pairsOfIdx_mem e t b (by simpa [pairsOfIdx] using hb)
              have hij : i < j := hi j hj
              have := operandForIndex_lt e hij
              simp only [hbj]
              omega
          | inGPR gr => simpa [pairsOfIdx] using htail
          | unboxedInt32InGPR gr => simpa [pairsOfIdx] using htail
          | inFPR fr => simpa [pairsOfIdx] using htail
          | constantRec c => simpa [pairsOfIdx] using htail
          | alreadyInRegisterFile => simpa [pairsOfIdx] using htail

theorem displacedPairs_snd_pairwise (e : OSRExitM) :
    (displacedPairs e).Pairwise (fun a b => a.2 ≠ b.2) :=
  pairsOfIdx_snd_pairwise e _ (List.pairwise_lt_range _)

theorem length_filterMap_countP (il : List α) (F : α → Option β) :
    (il.filterMap F).length = il.countP (fun i => (F i).isSome) := by
  induction il with
  | nil => rfl
  | cons x t ih =>
      rw [List.filterMap_cons, List.countP_cons]
      cases hF : F x <;> simp [hF, ih]

theorem countP_range_get (l : List α) (Q : Option α → Bool) :
    (List.range l.length).countP (fun i => Q (l.get? i)) =
      l.countP (fun x => Q (some x)) := by
  induction l with
  | nil => simp
  | cons x xs ih =>
      rw [List.length_cons, List.range_succ_eq_map, List.countP_cons,
        List.countP_map, List.countP_cons]
      have hcong : List.countP ((fun i => Q ((x :: xs).get? i)) ∘ Nat.succ)
            (List.range xs.length) =
          List.countP (fun i => Q (xs.get? i)) (List.range xs.length) :=
        List.countP_congr (fun i _ => Iff.rfl)
      rw [hcong, ih]
      rfl

theorem displacedPairs_length (e : OSRExitM) :
    (displacedPairs e).length = displacedCount e := by
  unfold displacedPairs pairsOfIdx displacedCount
  rw [length_filterMap_countP]
  have hcg : List.countP (fun i =>
        (match (e.recList.get? i : Option VRec) with
         | some (.displacedInRegisterFile vr) => some (vr, e.operandForIndex i)
         | _ => none).isSome) (List.range e.recList.length) =
      List.countP (fun i => (fun ox =>
        match ox with
        | some r => isDisplacedB r
        | none => false) (e.recList.get? i)) (List.range e.recList.length) :=
    List.countP_congr (fun i _ => by
      rcases hg : (e.recList.get? i : Option VRec) with _ | r
      · simp [hg]
      · cases r <;> simp [hg, isDisplacedB])
  rw [hcg, countP_range_get e.recList (fun ox =>
    match ox with
    | some r => isDisplacedB r
    | none => false)]

/-- C6: resolution of `DisplacedInRegisterFile` recoveries.  Structurally: if
there are none, nothing is emitted; if their count fits in the GPR file, the
emitted code is a two-phase shuffle — all loads of the displaced source slots
into distinct consecutive GPRs in recovery-index order, then all stores from
those GPRs to the destination home slots; otherwise every displaced value is
staged through the scratch buffer (written to consecutive scratch slots, then
read back and stored to the home slots).  Semantically: in all cases, after
running the emitted code each destination home slot holds the original
content of its displaced source slot — even when the displacements form a
permutation of the destinations.  The hypothesis `hss` is the source's own
assertion `scratchIndex == numberOfPoisonedVirtualRegisters` (lines 288,
340). -/
theorem c6_displaced_resolution (cfg : RegConfig) (e : OSRExitM) (ss : Nat)
    (o : Oracle) (s : MState) (hss : ss = (classify e).nPoisoned) :
    osrStep8 cfg e ss =
      (if displacedCount e = 0 then []
       else if displacedCount e ≤ cfg.numGPR then
         loadSeq (displacedPairs e) 0 ++ storeSeq (displacedPairs e) 0
       else
         stageInSeq (displacedPairs e) ((classify e).nPoisoned) ++
           stageOutSeq (displacedPairs e) ((classify e).nPoisoned)) ∧
    (∀ j : Nat, j < (displacedPairs e).length →
      (runI o s (osrStep8 cfg e ss)).mem ((displacedPairs e).getD j (0, 0)).2 =
        s.mem ((displacedPairs e).getD j (0, 0)).1) := by
  have hdc : (classify e).nDisplaced = displacedCount e := by
    simpa [classifyInit, displacedCount] using
      foldl_classify_nDisplaced e e.recList classifyInit
  have hstruct : osrStep8 cfg e ss =
      (if displacedCount e = 0 then []
       else if displacedCount e ≤ cfg.numGPR then
         loadSeq (displacedPairs e) 0 ++ storeSeq (displacedPairs e) 0
       else
         stageInSeq (displacedPairs e) ((classify e).nPoisoned) ++
           stageOutSeq (displacedPairs e) ((classify e).nPoisoned)) := by
    unfold osrStep8
    rw [hdc, hss, step8_load_fold, step8_store_fold, step8_stage_in_fold,
      step8_stage_out_fold]
    simp [displacedPairs]
  refine ⟨hstruct, ?_⟩
  intro j hj
  rw [hstruct]
  by_cases h0 : displacedCount e = 0
  · exfalso
    rw [displacedPairs_length, h0] at hj
    omega
  · rw [if_neg h0]
    by_cases hle : displacedCount e ≤ cfg.numGPR
    · rw [if_pos hle, runI_append]
      obtain ⟨hm, _, _, hg⟩ := run_loadSeq o (displacedPairs e) 0 s
      obtain ⟨_, _, _, hmj⟩ := run_storeSeq o (displacedPairs e) 0
        (runI o s (loadSeq (displacedPairs e) 0)) (displacedPairs_snd_pairwise e)
      rw [hmj j hj, hg j hj]
    · rw [if_neg hle, runI_append]
      obtain ⟨hm, _, hsc⟩ := run_stageInSeq o (displacedPairs e)
        ((classify e).nPoisoned) s
      obtain ⟨_, _, hmj⟩ := run_stageOutSeq o (displacedPairs e)
        ((classify e).nPoisoned)
        (runI o s (stageInSeq (displacedPairs e) ((classify e).nPoisoned)))
        (displacedPairs_snd_pairwise e)
      rw [hmj j hj, hsc j hj]

/-- Witness for `c6_displaced_resolution`: a 1-GPR machine with two displaced
recoveries whose displacements are the transposition `0 ↔ 1` — the staging
branch — evaluated at the first pair (the home slot of variable 0 receives
slot 1's original content). -/
theorem c6_witness :
    ((0 : Nat) = (classify (OSRExitM.mk [] [VRec.displacedInRegisterFile 1,
        VRec.displacedInRegisterFile 0] 2147483647)).nPoisoned) ∧
    ((0 : Nat) < (displacedPairs (OSRExitM.mk [] [VRec.displacedInRegisterFile 1,
        VRec.displacedInRegisterFile 0] 2147483647)).length) ∧
    (runI ⟨fun _ => none, fun _ => 0, fun _ => 0⟩
        ⟨fun _ => 0, fun _ => 0, fun z => if z = 0 then 41 else if z = 1 then 42 else 0,
         fun _ => 0, 0⟩
        (osrStep8 ⟨1, 1⟩ (OSRExitM.mk [] [VRec.displacedInRegisterFile 1,
          VRec.displacedInRegisterFile 0] 2147483647) 0)).mem
      ((displacedPairs (OSRExitM.mk [] [VRec.displacedInRegisterFile 1,
        VRec.displacedInRegisterFile 0] 2147483647)).getD 0 (0, 0)).2 =
      (⟨fun _ => 0, fun _ => 0, fun z => if z = 0 then 41 else if z = 1 then 42 else 0,
        fun _ => 0, 0⟩ : MState).mem
      ((displacedPairs (OSRExitM.mk [] [VRec.displacedInRegisterFile 1,
        VRec.displacedInRegisterFile 0] 2147483647)).getD 0 (0, 0)).1 :=
  ⟨by decide, by decide,
   (c6_displaced_resolution ⟨1, 1⟩ _ 0 _ _ (by decide)).2 0 (by decide)⟩

/-! ## Claim C3, amended: the per-cycle emitted shape -/

/-- A `previous`-chain check: starting from the head of the list, every node's
`previous` link points to the next list element, and the last one points back
to `stop`. -/
def prevLinksB (regs : Nat → SReg) (stop : Nat) : List Nat → Bool
  | [] => false
  | [x] => (regs x).previous == some stop
  | x :: y :: t => ((regs x).previous == some y) && prevLinksB regs stop (y :: t)

/-- The list `i0 :: rest` is a cycle of the permutation graph rooted at `i0`:
the links chain through it and back to `i0`, and no later element revisits
`i0` (so the walk's stopping test fires exactly at the end). -/
def cycleListOk (regs : Nat → SReg) : List Nat → Bool
  | [] => false
  | i0 :: rest => prevLinksB regs i0 (i0 :: rest) && rest.all (fun j => j ≠ i0)

/-- Last element of a nonempty index list (the source's `next`, the node
whose `previous` is the cycle head). -/
def lastOf : List Nat → Nat
  | [] => 0
  | [x] => x
  | _ :: y :: t => lastOf (y :: t)

/-- Mark every node of the list handled, in visit order — the walk's only
side effect on the register array. -/
def markH (regs : Nat → SReg) : List Nat → (Nat → SReg)
  | [] => regs
  | x :: t => markH (updS regs x { regs x with handled := true }) t

/-- The rotation sequence of a cycle list: one `moveTo` per adjacent pair,
moving each node's `previous` into it (lines 757-762 unrolled). -/
def cycleRotSpec (check : SpeculationCheck) (entry : EntryLocation)
    (regs : Nat → SReg) (s1 : Option Nat) : List Nat → List Instr
  | x :: y :: t =>
      grMoveTo (regs y).reg (regs x).reg
        (previousDataFormat check (regs y).reg)
        (nextDataFormat entry (regs x).reg) s1 ++
      cycleRotSpec check entry regs s1 (y :: t)
  | _ => []

theorem updS_handled_fields (regs : Nat → SReg) (x j : Nat) :
    ((updS regs x { regs x with handled := true }) j).previous
        = (regs j).previous ∧
    ((updS regs x { regs x with handled := true }) j).reg = (regs j).reg := by
  unfold updS
  by_cases h : j = x
  · subst h; simp
  · simp [h]

theorem markH_fields (regs : Nat → SReg) (c : List Nat) (j : Nat) :
    ((markH regs c) j).previous = (regs j).previous ∧
    ((markH regs c) j).reg = (regs j).reg := by
  induction c generalizing regs with
  | nil => exact ⟨rfl, rfl⟩
  | cons x t ih =>
      simp only [markH]
      exact ⟨((ih _).1).trans (updS_handled_fields regs x j).1,
             ((ih _).2).trans (updS_handled_fields regs x j).2⟩

theorem prevLinksB_congr (regs regs' : Nat → SReg)
    (h : ∀ j, (regs' j).previous = (regs j).previous) (stop : Nat) :
    ∀ d : List Nat, prevLinksB regs' stop d = prevLinksB regs stop d := by
  intro d
  induction d with
  | nil => rfl
  | cons x t ih =>
      cases t with
      | nil => simp [prevLinksB, h]
      | cons y t2 => simp [prevLinksB, h, ih]

theorem cycleRotSpec_congr (check : SpeculationCheck) (entry : EntryLocation)
    (s1 : Option Nat) (regs regs' : Nat → SReg)
    (h : ∀ j, (regs' j).reg = (regs j).reg) :
    ∀ d : List Nat,
      cycleRotSpec check entry regs' s1 d = cycleRotSpec check entry regs s1 d := by
  intro d
  induction d with
  | nil => rfl
  | cons x t ih =>
      cases t with
      | nil => rfl
      | cons y t2 => simp [cycleRotSpec, h, ih]

/-- The do-while walk of `handleCyclingPermutation`, characterized on an
explicit cycle list: it returns the cycle length, the last node visited, and
the array with every cycle node marked handled. -/
theorem cycleWalk_go (i0 : Nat) (t : List Nat) :
    ∀ (x : Nat) (regs : Nat → SReg) (fuel len : Nat),
      prevLinksB regs i0 (x :: t) = true →
      (∀ j ∈ t, j ≠ i0) →
      (x :: t).length ≤ fuel →
      cycleWalk i0 fuel regs x len =
        some (len + (x :: t).length, lastOf (x :: t), markH regs (x :: t)) := by
  induction t with
  | nil =>
      intro x regs fuel len hlinks hni hfuel
      obtain ⟨fuel', rfl⟩ : ∃ f, fuel = f + 1 := by
        cases fuel with
        | zero => simp at hfuel
        | succ f => exact ⟨f, rfl⟩
      have hprev : (regs x).previous = some i0 := by
        simpa [prevLinksB] using hlinks
      have hprev1 : ((updS regs x { regs x with handled := true }) x).previous
          = some i0 := by
        rw [(updS_handled_fields regs x x).1]; exact hprev
      simp [cycleWalk, hprev1, lastOf, markH]
  | cons y t2 ih =>
      intro x regs fuel len hlinks hni hfuel
      obtain ⟨fuel', rfl⟩ : ∃ f, fuel = f + 1 := by
        cases fuel with
        | zero => simp at hfuel
        | succ f => exact ⟨f, rfl⟩
      have hl : (regs x).previous = some y ∧ prevLinksB regs i0 (y :: t2) = true := by
        simpa [prevLinksB] using hlinks
      have hy : y ≠ i0 := hni y (List.mem_cons_self y t2)
      have hprev1 : ((updS regs x { regs x with handled := true }) x).previous
          = some y := by
        rw [(updS_handled_fields regs x x).1]; exact hl.1
      have hlinks1 : prevLinksB (updS regs x { regs x with handled := true }) i0
          (y :: t2) = true := by
        rw [prevLinksB_congr regs (updS regs x { regs x with handled := true })
             (fun j => (updS_handled_fields regs x j).1) i0 (y :: t2)]
        exact hl.2
      have hni' : ∀ j ∈ t2, j ≠ i0 := fun j hj => hni j (List.mem_cons_of_mem y hj)
      have hfuel' : (y :: t2).length ≤ fuel' := by
        simp only [List.length_cons] at hfuel ⊢; omega
      simp only [cycleWalk, hprev1]
      rw [if_neg hy]
      rw [ih y (updS regs x { regs x with handled := true }) fuel' (len + 1)
            hlinks1 hni' hfuel']
      simp only [List.length_cons, lastOf, markH, Option.some.injEq, Prod.mk.injEq]
      exact ⟨by omega, trivial⟩

/-- The rotation loop of the length ≥ 3 case, characterized on an explicit
cycle list: one `moveTo` per adjacent pair. -/
theorem cycleRotate_go (check : SpeculationCheck) (entry : EntryLocation)
    (i0 : Nat) (s1 : Option Nat) (t : List Nat) :
    ∀ (x : Nat) (regs : Nat → SReg) (fuel : Nat),
      prevLinksB regs i0 (x :: t) = true →
      (∀ j ∈ t, j ≠ i0) →
      (x :: t).length ≤ fuel →
      cycleRotate check entry i0 s1 fuel regs x =
        cycleRotSpec check entry regs s1 (x :: t) := by
  induction t with
  | nil =>
      intro x regs fuel hlinks hni hfuel
      obtain ⟨fuel', rfl⟩ : ∃ f, fuel = f + 1 := by
        cases fuel with
        | zero => simp at hfuel
        | succ f => exact ⟨f, rfl⟩
      have hprev : (regs x).previous = some i0 := by
        simpa [prevLinksB] using hlinks
      simp [cycleRotate, hprev, cycleRotSpec]
  | cons y t2 ih =>
      intro x regs fuel hlinks hni hfuel
      obtain ⟨fuel', rfl⟩ : ∃ f, fuel = f + 1 := by
        cases fuel with
        | zero => simp at hfuel
        | succ f => exact ⟨f, rfl⟩
      have hl : (regs x).previous = some y ∧ prevLinksB regs i0 (y :: t2) = true := by
        simpa [prevLinksB] using hlinks
      have hy : y ≠ i0 := hni y (List.mem_cons_self y t2)
      have hni' : ∀ j ∈ t2, j ≠ i0 := fun j hj => hni j (List.mem_cons_of_mem y hj)
      have hfuel' : (y :: t2).length ≤ fuel' := by
        simp only [List.length_cons] at hfuel ⊢; omega
      simp only [cycleRotate, hl.1]
      rw [if_neg hy]
      rw [ih y regs fuel' hl.2 hni' hfuel']
      simp [cycleRotSpec]

/-- C3: for each cycle of the permutation graph, given as the explicit index
list `i0 :: rest` (links chaining through the list and back to the head), the
emitted resolution depends only on the cycle length L.  L = 1: the in-place
representation conversion of `convert`.  L = 2: `swapWith` of the two
endpoints — a swap primitive plus conversions only when both are GPRs, the
scratch-mediated move sequences otherwise.  L ≥ 3: a save of the head node's
value into a scratch — the second scratch FPR exactly when both the head and
the last node are FPRs and such a scratch is available, the scratch GPR
otherwise — then one `moveTo` per adjacent pair of the cycle list (L − 1
moves), then the write-back of the scratch into the last node. -/
theorem c3_amended (cfg : RegConfig) (check : SpeculationCheck)
    (entry : EntryLocation) (regs : Nat → SReg) (i0 : Nat) (rest : List Nat)
    (scratchGPR : Nat) (s1 s2 : Option Nat)
    (hok : cycleListOk regs (i0 :: rest) = true)
    (hlen : (i0 :: rest).length ≤ cfg.numGPR + cfg.numFPR) :
    (handleCycling cfg check entry regs i0 scratchGPR s1 s2).2 =
      match rest with
      | [] => grConvert (regs i0).reg (previousDataFormat check (regs i0).reg)
                (nextDataFormat entry (regs i0).reg)
      | [i1] => grSwapWith (regs i0).reg (regs i1).reg
                  (previousDataFormat check (regs i0).reg)
                  (nextDataFormat entry (regs i0).reg)
                  (previousDataFormat check (regs i1).reg)
                  (nextDataFormat entry (regs i1).reg) scratchGPR s1
      | _ :: _ :: _ =>
          (if (regs i0).reg.isFPR && (regs (lastOf (i0 :: rest))).reg.isFPR then
             match s2 with
             | none => grMoveTo (regs i0).reg (.gprReg scratchGPR)
                 .double .jsDouble s1
             | some sf2 => grMoveTo (regs i0).reg (.fprReg sf2) .double .double s1
           else
             grMoveTo (regs i0).reg (.gprReg scratchGPR)
               (previousDataFormat check (regs i0).reg)
               (nextDataFormat entry (regs (lastOf (i0 :: rest))).reg) s1) ++
          cycleRotSpec check entry regs s1 (i0 :: rest) ++
          (if (regs i0).reg.isFPR && (regs (lastOf (i0 :: rest))).reg.isFPR then
             match s2 with
             | none => grMoveTo (.gprReg scratchGPR)
                 (regs (lastOf (i0 :: rest))).reg .jsDouble .double s1
             | some sf2 => grMoveTo (.fprReg sf2)
                 (regs (lastOf (i0 :: rest))).reg .double .double s1
           else
             grMoveTo (.gprReg scratchGPR) (regs (lastOf (i0 :: rest))).reg
               (nextDataFormat entry (regs (lastOf (i0 :: rest))).reg)
               (nextDataFormat entry (regs (lastOf (i0 :: rest))).reg) s1) := by
  obtain ⟨hlinks, hni⟩ : prevLinksB regs i0 (i0 :: rest) = true ∧
      ∀ j ∈ rest, j ≠ i0 := by
    simpa [cycleListOk, List.all_eq_true] using hok
  cases rest with
  | nil =>
      have hwalk := cycleWalk_go i0 [] i0 regs (cfg.numGPR + cfg.numFPR + 1) 0
        hlinks hni (Nat.le_succ_of_le hlen)
      unfold handleCycling
      rw [hwalk]
      show grConvert (markH regs [i0] i0).reg
          (previousDataFormat check (markH regs [i0] i0).reg)
          (nextDataFormat entry (markH regs [i0] i0).reg) = _
      rw [(markH_fields regs [i0] i0).2]
  | cons i1 rest2 =>
    cases rest2 with
    | nil =>
        have hl2 : (regs i0).previous = some i1 ∧ (regs i1).previous = some i0 := by
          simpa [prevLinksB] using hlinks
        have hwalk := cycleWalk_go i0 [i1] i0 regs (cfg.numGPR + cfg.numFPR + 1) 0
          hlinks hni (Nat.le_succ_of_le hlen)
        have hprevm : (markH regs [i0, i1] i0).previous = some i1 := by
          rw [(markH_fields regs [i0, i1] i0).1]; exact hl2.1
        unfold handleCycling
        rw [hwalk]
        show (match (markH regs [i0, i1] i0).previous with
              | none => (markH regs [i0, i1], ([] : List Instr))
              | some p => (markH regs [i0, i1],
                  grSwapWith (markH regs [i0, i1] i0).reg
                    (markH regs [i0, i1] p).reg
                    (previousDataFormat check (markH regs [i0, i1] i0).reg)
                    (nextDataFormat entry (markH regs [i0, i1] i0).reg)
                    (previousDataFormat check (markH regs [i0, i1] p).reg)
                    (nextDataFormat entry (markH regs [i0, i1] p).reg)
                    scratchGPR s1)).2 = _
        rw [hprevm]
        show grSwapWith (markH regs [i0, i1] i0).reg (markH regs [i0, i1] i1).reg
            (previousDataFormat check (markH regs [i0, i1] i0).reg)
            (nextDataFormat entry (markH regs [i0, i1] i0).reg)
            (previousDataFormat check (markH regs [i0, i1] i1).reg)
            (nextDataFormat entry (markH regs [i0, i1] i1).reg) scratchGPR s1 = _
        rw [(markH_fields regs [i0, i1] i0).2, (markH_fields regs [i0, i1] i1).2]
    | cons i2 t2 =>
        have hwalk := cycleWalk_go i0 (i1 :: i2 :: t2) i0 regs
          (cfg.numGPR + cfg.numFPR + 1) 0 hlinks hni (Nat.le_succ_of_le hlen)
        have hlinks1 : prevLinksB (markH regs (i0 :: i1 :: i2 :: t2)) i0
            (i0 :: i1 :: i2 :: t2) = true := by
          rw [prevLinksB_congr regs (markH regs (i0 :: i1 :: i2 :: t2))
               (fun j => (markH_fields regs (i0 :: i1 :: i2 :: t2) j).1) i0]
          exact hlinks
        have hrot := cycleRotate_go check entry i0 s1 (i1 :: i2 :: t2) i0
          (markH regs (i0 :: i1 :: i2 :: t2)) (cfg.numGPR + cfg.numFPR + 1)
          hlinks1 hni (Nat.le_succ_of_le hlen)
        have hrspec := cycleRotSpec_congr check entry s1 regs
          (markH regs (i0 :: i1 :: i2 :: t2))
          (fun j => (markH_fields regs (i0 :: i1 :: i2 :: t2) j).2)
          (i0 :: i1 :: i2 :: t2)
        unfold handleCycling
        rw [hwalk]
        show ((if (markH regs (i0 :: i1 :: i2 :: t2) i0).reg.isFPR &&
                  (markH regs (i0 :: i1 :: i2 :: t2)
                    (lastOf (i0 :: i1 :: i2 :: t2))).reg.isFPR then
                match s2 with
                | none => grMoveTo (markH regs (i0 :: i1 :: i2 :: t2) i0).reg
                    (.gprReg scratchGPR) .double .jsDouble s1
                | some sf2 => grMoveTo (markH regs (i0 :: i1 :: i2 :: t2) i0).reg
                    (.fprReg sf2) .double .double s1
              else
                grMoveTo (markH regs (i0 :: i1 :: i2 :: t2) i0).reg
                  (.gprReg scratchGPR)
                  (previousDataFormat check
                    (markH regs (i0 :: i1 :: i2 :: t2) i0).reg)
                  (nextDataFormat entry (markH regs (i0 :: i1 :: i2 :: t2)
                    (lastOf (i0 :: i1 :: i2 :: t2))).reg) s1) ++
              cycleRotate check entry i0 s1 (cfg.numGPR + cfg.numFPR + 1)
                (markH regs (i0 :: i1 :: i2 :: t2)) i0 ++
              (if (markH regs (i0 :: i1 :: i2 :: t2) i0).reg.isFPR &&
                  (markH regs (i0 :: i1 :: i2 :: t2)
                    (lastOf (i0 :: i1 :: i2 :: t2))).reg.isFPR then
                match s2 with
                | none => grMoveTo (.gprReg scratchGPR)
                    (markH regs (i0 :: i1 :: i2 :: t2)
                      (lastOf (i0 :: i1 :: i2 :: t2))).reg .jsDouble .double s1
                | some sf2 => grMoveTo (.fprReg sf2)
                    (markH regs (i0 :: i1 :: i2 :: t2)
                      (lastOf (i0 :: i1 :: i2 :: t2))).reg .double .double s1
              else
                grMoveTo (.gprReg scratchGPR)
                  (markH regs (i0 :: i1 :: i2 :: t2)
                    (lastOf (i0 :: i1 :: i2 :: t2))).reg
                  (nextDataFormat entry (markH regs (i0 :: i1 :: i2 :: t2)
                    (lastOf (i0 :: i1 :: i2 :: t2))).reg)
                  (nextDataFormat entry (markH regs (i0 :: i1 :: i2 :: t2)
                    (lastOf (i0 :: i1 :: i2 :: t2))).reg) s1)) = _
        rw [hrot, hrspec, (markH_fields regs (i0 :: i1 :: i2 :: t2) i0).2,
            (markH_fields regs (i0 :: i1 :: i2 :: t2)
              (lastOf (i0 :: i1 :: i2 :: t2))).2]

/-- A 2-GPR, 2-FPR machine for the C3 witness. -/
def cfgC3W : RegConfig := ⟨2, 2⟩

/-- A register state whose nodes form the 3-cycle
`gpr0 → gpr1 → fpr0 → gpr0` (combined indices 0, 1, 2). -/
def regsC3W : Nat → SReg := fun i =>
  if i = 0 then ⟨.gprReg 0, some 1, true, true, false⟩
  else if i = 1 then ⟨.gprReg 1, some 2, true, true, false⟩
  else if i = 2 then ⟨.fprReg 0, some 0, true, true, false⟩
  else ⟨.fprReg 1, none, false, false, false⟩

/-- Snapshots for the C3 witness: boxed JS values in GPRs, doubles in FPRs. -/
def checkC3W : SpeculationCheck :=
  { gprInfo := fun i => ⟨some i, .js, false⟩,
    fprInfo := fun i => ⟨some (2 + i), .double, false⟩ }

/-- Witness for `c3_amended`: the concrete 3-cycle above (head a GPR, last
node an FPR, so the scratch-GPR save is selected), evaluated to the four
emitted operations: save head into the scratch GPR, the two rotation moves,
write the scratch back into the last node. -/
theorem c3_amended_witness :
    cycleListOk regsC3W [0, 1, 2] = true ∧
    ([0, 1, 2] : List Nat).length ≤ cfgC3W.numGPR + cfgC3W.numFPR ∧
    (handleCycling cfgC3W checkC3W checkC3W regsC3W 0 5 none none).2 =
      [.zeroExtend32 0 5, .move 1 0, .boxDouble 0 1, .unboxDouble 5 0] :=
  ⟨by decide, by decide,
   (c3_amended cfgC3W checkC3W checkC3W regsC3W 0 [1, 2] 5 none none
      (by decide) (by decide)).trans (by decide)⟩

/-! ## Claim C9, amended: the identity bridging exit -/

/-- The physical register at combined index `k`. -/
def regOfIdx (cfg : RegConfig) (k : Nat) : GenReg :=
  if k < cfg.numGPR then .gprReg k else .fprReg (k - cfg.numGPR)

/-- The reverse node-to-register map a snapshot induces: one entry per live
register, GPRs first, in allocator order — exactly the list the discovery
loop builds. -/
def snapshotMap (cfg : RegConfig) (m : SpeculationCheck) : NRMap :=
  (List.range cfg.numGPR).filterMap
    (fun i => ((m.gprInfo i).nodeIndex).map (fun n => (n, GenReg.gprReg i))) ++
  (List.range cfg.numFPR).filterMap
    (fun i => ((m.fprInfo i).nodeIndex).map (fun n => (n, GenReg.fprReg i)))

theorem discGpr_maps (check : SpeculationCheck) (l : List Nat) :
    ∀ st : DiscoveryState,
      (l.foldl (discGprStep check check) st).checkMap =
        st.checkMap ++ l.filterMap
          (fun i => ((check.gprInfo i).nodeIndex).map
            (fun n => (n, GenReg.gprReg i))) ∧
      (l.foldl (discGprStep check check) st).entryMap =
        st.entryMap ++ l.filterMap
          (fun i => ((check.gprInfo i).nodeIndex).map
            (fun n => (n, GenReg.gprReg i))) := by
  induction l with
  | nil => intro st; simp
  | cons i t ih =>
      intro st
      simp only [List.foldl_cons]
      obtain ⟨ihc, ihe⟩ := ih (discGprStep check check st i)
      cases hn : (check.gprInfo i).nodeIndex with
      | none =>
          have hmc : (discGprStep check check st i).checkMap = st.checkMap := by
            simp [discGprStep, hn]
          have hme : (discGprStep check check st i).entryMap = st.entryMap := by
            simp [discGprStep, hn]
          rw [ihc, ihe, hmc, hme]
          simp [List.filterMap_cons, hn]
      | some n =>
          have hmc : (discGprStep check check st i).checkMap =
              st.checkMap ++ [(n, GenReg.gprReg i)] := by
            simp [discGprStep, hn, nrSet]
          have hme : (discGprStep check check st i).entryMap =
              st.entryMap ++ [(n, GenReg.gprReg i)] := by
            simp [discGprStep, hn, nrSet]
          rw [ihc, ihe, hmc, hme]
          simp [List.filterMap_cons, hn]

theorem discFpr_maps (check : SpeculationCheck) (l : List Nat) :
    ∀ st : DiscoveryState,
      (l.foldl (discFprStep check check) st).checkMap =
        st.checkMap ++ l.filterMap
          (fun i => ((check.fprInfo i).nodeIndex).map
            (fun n => (n, GenReg.fprReg i))) ∧
      (l.foldl (discFprStep check check) st).entryMap =
        st.entryMap ++ l.filterMap
          (fun i => ((check.fprInfo i).nodeIndex).map
            (fun n => (n, GenReg.fprReg i))) := by
  induction l with
  | nil => intro st; simp
  | cons i t ih =>
      intro st
      simp only [List.foldl_cons]
      obtain ⟨ihc, ihe⟩ := ih (discFprStep check check st i)
      cases hn : (check.fprInfo i).nodeIndex with
      | none =>
          have hmc : (discFprStep check check st i).checkMap = st.checkMap := by
            simp only [discFprStep, hn]
            by_cases h1 : st.scratchFPR1 = none <;> simp [h1]
          have hme : (discFprStep check check st i).entryMap = st.entryMap := by
            simp only [discFprStep, hn]
            by_cases h1 : st.scratchFPR1 = none <;> simp [h1]
          rw [ihc, ihe, hmc, hme]
          simp [List.filterMap_cons, hn]
      | some n =>
          have hmc : (discFprStep check check st i).checkMap =
              st.checkMap ++ [(n, GenReg.fprReg i)] := by
            simp [discFprStep, hn, nrSet]
          have hme : (discFprStep check check st i).entryMap =
              st.entryMap ++ [(n, GenReg.fprReg i)] := by
            simp [discFprStep, hn, nrSet]
          rw [ihc, ihe, hmc, hme]
          simp [List.filterMap_cons, hn]

/-- On an identity exit, both discovery maps are the snapshot's reverse map. -/
theorem snapshotMap_maps (cfg : RegConfig) (check : SpeculationCheck) :
    (bridgeDiscovery cfg check check).checkMap = snapshotMap cfg check ∧
    (bridgeDiscovery cfg check check).entryMap = snapshotMap cfg check := by
  unfold bridgeDiscovery snapshotMap
  obtain ⟨hgc, hge⟩ := discGpr_maps check (List.range cfg.numGPR)
    ⟨[], [], none, none, none⟩
  obtain ⟨hfc, hfe⟩ := discFpr_maps check (List.range cfg.numFPR)
    ((List.range cfg.numGPR).foldl (discGprStep check check)
      ⟨[], [], none, none, none⟩)
  constructor
  · rw [hfc, hgc]; simp
  · rw [hfe, hge]; simp

/-- Invariant 1 in usable form: two registers holding the same node are the
same register. -/
theorem nodesUnique_eq (cfg : RegConfig) (check : SpeculationCheck)
    (hu : nodesUniqueB cfg check = true) {k1 k2 n : Nat}
    (h1 : k1 < cfg.numGPR + cfg.numFPR) (h2 : k2 < cfg.numGPR + cfg.numFPR)
    (ha : nodeAt cfg check k1 = some n) (hb : nodeAt cfg check k2 = some n) :
    k1 = k2 := by
  have h3 := (List.all_eq_true.mp hu) k1 (List.mem_range.mpr h1)
  have h4 := (List.all_eq_true.mp h3) k2 (List.mem_range.mpr h2)
  simpa [ha, hb] using h4

theorem find?_key_unique (n : Nat) (v : GenReg) :
    ∀ l : NRMap, (∃ p ∈ l, p.1 = n) → (∀ p ∈ l, p.1 = n → p.2 = v) →
      ((l.find? (fun p => p.1 == n)).map (fun p => p.2)) = some v := by
  intro l
  induction l with
  | nil => rintro ⟨p, hp, _⟩ _; exact absurd hp (List.not_mem_nil p)
  | cons q t ih =>
      rintro ⟨p, hp, hpn⟩ hall
      by_cases hq : q.1 = n
      · rw [List.find?_cons_of_pos _ (by simpa using hq)]
        simp [hall q (List.mem_cons_self q t) hq]
      · rw [List.find?_cons_of_neg _ (by simpa using hq)]
        refine ih ⟨p, ?_, hpn⟩ (fun p2 hp2 hp2n => hall p2 (List.mem_cons_of_mem q hp2) hp2n)
        rcases List.mem_cons.mp hp with rfl | hp'
        · exact absurd hpn hq
        · exact hp'

theorem snapshotMap_mem (cfg : RegConfig) (check : SpeculationCheck) {k n : Nat}
    (hk : k < cfg.numGPR + cfg.numFPR) (hn : nodeAt cfg check k = some n) :
    (n, regOfIdx cfg k) ∈ snapshotMap cfg check := by
  unfold snapshotMap
  rw [List.mem_append]
  by_cases hg : k < cfg.numGPR
  · left
    rw [List.mem_filterMap]
    refine ⟨k, List.mem_range.mpr hg, ?_⟩
    unfold nodeAt at hn
    rw [if_pos hg] at hn
    rw [hn]
    unfold regOfIdx
    rw [if_pos hg]
    rfl
  · right
    rw [List.mem_filterMap]
    refine ⟨k - cfg.numGPR, List.mem_range.mpr (by omega), ?_⟩
    unfold nodeAt at hn
    rw [if_neg hg] at hn
    rw [hn]
    unfold regOfIdx
    rw [if_neg hg]
    rfl

theorem snapshotMap_entry (cfg : RegConfig) (check : SpeculationCheck)
    (p : Nat × GenReg) (hp : p ∈ snapshotMap cfg check) :
    ∃ k, k < cfg.numGPR + cfg.numFPR ∧ nodeAt cfg check k = some p.1 ∧
      p.2 = regOfIdx cfg k := by
  unfold snapshotMap at hp
  rcases List.mem_append.mp hp with hA | hB
  · obtain ⟨i, hi, hfi⟩ := List.mem_filterMap.mp hA
    have hig := List.mem_range.mp hi
    cases hn : (check.gprInfo i).nodeIndex with
    | none => rw [hn] at hfi; exact absurd hfi (by simp)
    | some n =>
        rw [hn] at hfi
        obtain rfl : (n, GenReg.gprReg i) = p := by simpa using hfi
        refine ⟨i, by omega, ?_, ?_⟩
        · unfold nodeAt; rw [if_pos hig]; exact hn
        · unfold regOfIdx; rw [if_pos hig]
  · obtain ⟨i, hi, hfi⟩ := List.mem_filterMap.mp hB
    have hif := List.mem_range.mp hi
    cases hn : (check.fprInfo i).nodeIndex with
    | none => rw [hn] at hfi; exact absurd hfi (by simp)
    | some n =>
        rw [hn] at hfi
        obtain rfl : (n, GenReg.fprReg i) = p := by simpa using hfi
        refine ⟨cfg.numGPR + i, by omega, ?_, ?_⟩
        · unfold nodeAt
          rw [if_neg (by omega)]
          simpa using hn
        · unfold regOfIdx
          rw [if_neg (by omega)]
          simp

/-- Under invariant 1, looking a live node up in the snapshot's reverse map
returns precisely the register that holds it. -/
theorem nrFind_snapshot (cfg : RegConfig) (check : SpeculationCheck)
    (hu : nodesUniqueB cfg check = true) {k n : Nat}
    (hk : k < cfg.numGPR + cfg.numFPR) (hn : nodeAt cfg check k = some n) :
    nrFind (snapshotMap cfg check) n = some (regOfIdx cfg k) := by
  unfold nrFind
  apply find?_key_unique
  · exact ⟨(n, regOfIdx cfg k),
      List.mem_reverse.mpr (snapshotMap_mem cfg check hk hn), rfl⟩
  · rintro p hp hpn
    obtain ⟨k2, hk2, hn2, hr2⟩ := snapshotMap_entry cfg check p
      (List.mem_reverse.mp hp)
    rw [hpn] at hn2
    rw [hr2, nodesUnique_eq cfg check hu hk2 hk hn2 hn]

theorem nrFind_snapshot_gpr (cfg : RegConfig) (check : SpeculationCheck)
    (hu : nodesUniqueB cfg check = true) {i n : Nat} (hi : i < cfg.numGPR)
    (hn : (check.gprInfo i).nodeIndex = some n) :
    nrFind (snapshotMap cfg check) n = some (.gprReg i) := by
  have h := nrFind_snapshot cfg check hu (k := i) (by omega)
    (by unfold nodeAt; rw [if_pos hi]; exact hn)
  rwa [regOfIdx, if_pos hi] at h

theorem nrFind_snapshot_fpr (cfg : RegConfig) (check : SpeculationCheck)
    (hu : nodesUniqueB cfg check = true) {i n : Nat} (hi : i < cfg.numFPR)
    (hn : (check.fprInfo i).nodeIndex = some n) :
    nrFind (snapshotMap cfg check) n = some (.fprReg i) := by
  have h := nrFind_snapshot cfg check hu (k := cfg.numGPR + i) (by omega)
    (by unfold nodeAt; rw [if_neg (by omega)]; simpa using hn)
  rw [regOfIdx, if_neg (by omega)] at h
  simpa using h

theorem gprSpillStep_dead (cfg : RegConfig) (g : Nat → NodeM)
    (check : SpeculationCheck) (em : NRMap) (st : GprSpillState) (i : Nat)
    (hn : (check.gprInfo i).nodeIndex = none) :
    bridgeGprSpillStep cfg g check check em st i = st := by
  simp [bridgeGprSpillStep, hn]

/-- On an identity exit, a live GPR's spill iteration only links the register
into a self-loop: the entry side holds the node in the same register, which
is never marked spilled-on-entry-but-not-on-exit, so the spill is skipped. -/
theorem gprSpillStep_id (cfg : RegConfig) (g : Nat → NodeM)
    (check : SpeculationCheck) (em : NRMap) (st : GprSpillState) (i n : Nat)
    (hn : (check.gprInfo i).nodeIndex = some n)
    (hf : nrFind em n = some (.gprReg i)) :
    bridgeGprSpillStep cfg g check check em st i =
      { st with regs := updS st.regs i ({ st.regs i with previous := some i, hasFrom := true, hasTo := true }) } := by
  have hb : (!(check.gprInfo i).isSpilled || (check.gprInfo i).isSpilled) = true := by
    cases (check.gprInfo i).isSpilled <;> rfl
  simp only [bridgeGprSpillStep, hn, hf, grFindInfo, lookupIdx, hb, if_true]
  congr 1
  funext k
  simp only [updS]
  by_cases hk : k = i
  · subst hk; simp
  · simp [hk]

theorem gprSpill_id (cfg : RegConfig) (g : Nat → NodeM) (check : SpeculationCheck)
    (em : NRMap)
    (hfind : ∀ i, i < cfg.numGPR → ∀ n, (check.gprInfo i).nodeIndex = some n →
      nrFind em n = some (.gprReg i)) :
    ∀ l : List Nat, (∀ i ∈ l, i < cfg.numGPR) → ∀ st : GprSpillState,
      (l.foldl (bridgeGprSpillStep cfg g check check em) st).scratchGPR
          = st.scratchGPR ∧
      (l.foldl (bridgeGprSpillStep cfg g check check em) st).ops = st.ops ∧
      ∀ k, (l.foldl (bridgeGprSpillStep cfg g check check em) st).regs k =
        if k ∈ l ∧ ((check.gprInfo k).nodeIndex).isSome = true then
          { st.regs k with previous := some k, hasFrom := true, hasTo := true }
        else st.regs k := by
  intro l
  induction l with
  | nil => intro _ st; exact ⟨rfl, rfl, fun k => by simp⟩
  | cons i t ih =>
      intro hb st
      simp only [List.foldl_cons]
      have hib := hb i (List.mem_cons_self i t)
      have hbt : ∀ j ∈ t, j < cfg.numGPR :=
        fun j hj => hb j (List.mem_cons_of_mem i hj)
      cases hn : (check.gprInfo i).nodeIndex with
      | none =>
          rw [gprSpillStep_dead cfg g check em st i hn]
          obtain ⟨h1, h2, h3⟩ := ih hbt st
          refine ⟨h1, h2, fun k => ?_⟩
          rw [h3 k]
          by_cases hk : k = i
          · subst hk; simp [hn]
          · simp [List.mem_cons, hk]
      | some n =>
          rw [gprSpillStep_id cfg g check em st i n hn (hfind i hib n hn)]
          obtain ⟨h1, h2, h3⟩ := ih hbt
            { st with regs := updS st.regs i ({ st.regs i with previous := some i, hasFrom := true, hasTo := true }) }
          refine ⟨h1, h2, fun k => ?_⟩
          rw [h3 k]
          by_cases hk : k = i
          · subst hk
            by_cases hkt : k ∈ t
            · simp [updS, hn, hkt, List.mem_cons]
            · simp [updS, hn, hkt, List.mem_cons]
          · simp [updS, hk, List.mem_cons]

theorem fprSpillStep_dead (cfg : RegConfig) (g : Nat → NodeM)
    (check : SpeculationCheck) (em : NRMap) (scratchGPR : Nat)
    (st : FprSpillState) (i : Nat)
    (hn : (check.fprInfo i).nodeIndex = none) :
    bridgeFprSpillStep cfg g check check em scratchGPR st i = st := by
  simp [bridgeFprSpillStep, hn]

theorem fprSpillStep_id (cfg : RegConfig) (g : Nat → NodeM)
    (check : SpeculationCheck) (em : NRMap) (scratchGPR : Nat)
    (st : FprSpillState) (i n : Nat)
    (hn : (check.fprInfo i).nodeIndex = some n)
    (hf : nrFind em n = some (.fprReg i)) :
    bridgeFprSpillStep cfg g check check em scratchGPR st i =
      { st with regs := updS st.regs (cfg.numGPR + i) ({ st.regs (cfg.numGPR + i) with previous := some (cfg.numGPR + i), hasFrom := true, hasTo := true }) } := by
  have hb : (!(check.fprInfo i).isSpilled || (check.fprInfo i).isSpilled) = true := by
    cases (check.fprInfo i).isSpilled <;> rfl
  simp only [bridgeFprSpillStep, hn, hf, grFindInfo, lookupIdx, hb, if_true]
  congr 1
  funext k
  simp only [updS]
  by_cases hk : k = cfg.numGPR + i
  · subst hk; simp
  · simp [hk]

theorem fprSpill_id (cfg : RegConfig) (g : Nat → NodeM) (check : SpeculationCheck)
    (em : NRMap) (scratchGPR : Nat)
    (hfind : ∀ i, i < cfg.numFPR → ∀ n, (check.fprInfo i).nodeIndex = some n →
      nrFind em n = some (.fprReg i)) :
    ∀ l : List Nat, (∀ i ∈ l, i < cfg.numFPR) → ∀ st : FprSpillState,
      (l.foldl (bridgeFprSpillStep cfg g check check em scratchGPR) st).scratchFPR1
          = st.scratchFPR1 ∧
      (l.foldl (bridgeFprSpillStep cfg g check check em scratchGPR) st).scratchFPR2
          = st.scratchFPR2 ∧
      (l.foldl (bridgeFprSpillStep cfg g check check em scratchGPR) st).ops
          = st.ops ∧
      ∀ k, (l.foldl (bridgeFprSpillStep cfg g check check em scratchGPR) st).regs k =
        if k ∈ l.map (fun j => cfg.numGPR + j) ∧
            ((check.fprInfo (k - cfg.numGPR)).nodeIndex).isSome = true then
          { st.regs k with previous := some k, hasFrom := true, hasTo := true }
        else st.regs k := by
  intro l
  induction l with
  | nil => intro _ st; exact ⟨rfl, rfl, rfl, fun k => by simp⟩
  | cons i t ih =>
      intro hb st
      simp only [List.foldl_cons]
      have hib := hb i (List.mem_cons_self i t)
      have hbt : ∀ j ∈ t, j < cfg.numFPR :=
        fun j hj => hb j (List.mem_cons_of_mem i hj)
      cases hn : (check.fprInfo i).nodeIndex with
      | none =>
          rw [fprSpillStep_dead cfg g check em scratchGPR st i hn]
          obtain ⟨h1, h2, h3, h4⟩ := ih hbt st
          refine ⟨h1, h2, h3, fun k => ?_⟩
          rw [h4 k]
          by_cases hk : k = cfg.numGPR + i
          · subst hk; simp [hn, Nat.add_sub_cancel_left]
          · simp [List.map_cons, List.mem_cons, hk]
      | some n =>
          rw [fprSpillStep_id cfg g check em scratchGPR st i n hn
            (hfind i hib n hn)]
          obtain ⟨h1, h2, h3, h4⟩ := ih hbt
            { st with regs := updS st.regs (cfg.numGPR + i) ({ st.regs (cfg.numGPR + i) with previous := some (cfg.numGPR + i), hasFrom := true, hasTo := true }) }
          refine ⟨h1, h2, h3, fun k => ?_⟩
          rw [h4 k]
          by_cases hk : k = cfg.numGPR + i
          · subst hk
            by_cases hkt : cfg.numGPR + i ∈ t.map (fun j => cfg.numGPR + j)
            · simp [updS, hn, hkt, List.map_cons, List.mem_cons,
                Nat.add_sub_cancel_left]
            · simp [updS, hn, hkt, List.map_cons, List.mem_cons,
                Nat.add_sub_cancel_left]
          · simp [updS, hk, List.map_cons, List.mem_cons]

theorem needDataFormatConversion_refl (f : DataFormat) :
    needDataFormatConversion f f = false := by
  cases f <;> rfl

theorem foldl_fix {α β : Type _} (f : α → β → α) :
    ∀ (l : List β) (a : α), (∀ b ∈ l, f a b = a) → l.foldl f a = a := by
  intro l
  induction l with
  | nil => intro a _; rfl
  | cons b t ih =>
      intro a h
      rw [List.foldl_cons, h b (List.mem_cons_self b t)]
      exact ih a (fun c hc => h c (List.mem_cons_of_mem b hc))

/-- A self-loop node's cycle is a 1-cycle: `handleCyclingPermutation` marks it
handled and emits only the (possibly empty) in-place conversion. -/
theorem handleCycling_selfloop (cfg : RegConfig) (check : SpeculationCheck)
    (entry : EntryLocation) (regs : Nat → SReg) (i scratchGPR : Nat)
    (s1 s2 : Option Nat) (hp : (regs i).previous = some i) :
    handleCycling cfg check entry regs i scratchGPR s1 s2 =
      (markH regs [i], grConvert ((markH regs [i]) i).reg
        (previousDataFormat check ((markH regs [i]) i).reg)
        (nextDataFormat entry ((markH regs [i]) i).reg)) := by
  have hwalk := cycleWalk_go i [] i regs (cfg.numGPR + cfg.numFPR + 1) 0
    (by simp [prevLinksB, hp]) (by simp)
    (by simp only [List.length_cons, List.length_nil]; omega)
  unfold handleCycling
  rw [hwalk]
  rfl

/-- A node with no incoming link is not on any cycle: the walk fails and the
cycling handler does nothing. -/
theorem handleCycling_nolink (cfg : RegConfig) (check : SpeculationCheck)
    (entry : EntryLocation) (regs : Nat → SReg) (i scratchGPR : Nat)
    (s1 s2 : Option Nat) (hp : (regs i).previous = none) :
    handleCycling cfg check entry regs i scratchGPR s1 s2 = (regs, []) := by
  have hp1 : ((updS regs i { regs i with handled := true }) i).previous = none := by
    rw [(updS_handled_fields regs i i).1]; exact hp
  have hw : cycleWalk i (cfg.numGPR + cfg.numFPR + 1) regs i 0 = none := by
    simp [cycleWalk, hp1]
  unfold handleCycling
  rw [hw]

/-- On a shuffle graph made only of self-loops and unlinked nodes (the
identity exit), the cycling pass emits nothing. -/
theorem cyPass_ops (cfg : RegConfig) (check : SpeculationCheck)
    (scratchGPR : Nat) (s1 s2 : Option Nat) :
    ∀ (l : List Nat) (st : (Nat → SReg) × List Instr),
      (∀ k, (st.1 k).previous = some k ∨ (st.1 k).previous = none) →
      (l.foldl (bridgeCYStep cfg check check scratchGPR s1 s2) st).2 = st.2 := by
  intro l
  induction l with
  | nil => intro st _; rfl
  | cons i t ih =>
      intro st hinv
      simp only [List.foldl_cons]
      by_cases hskip :
          ((st.1 i).handled || (!(st.1 i).hasFrom && !(st.1 i).hasTo)) = true
      · have hstep : bridgeCYStep cfg check check scratchGPR s1 s2 st i = st := by
          simp [bridgeCYStep, hskip]
        rw [hstep]; exact ih st hinv
      · rcases hinv i with hp | hp
        · have hstep : bridgeCYStep cfg check check scratchGPR s1 s2 st i =
              (markH st.1 [i], st.2) := by
            simp only [bridgeCYStep]
            rw [if_neg hskip,
              handleCycling_selfloop cfg check check st.1 i scratchGPR s1 s2 hp]
            simp [grConvert, needDataFormatConversion_refl, previousDataFormat,
              nextDataFormat]
          rw [hstep]
          refine ih (markH st.1 [i], st.2) (fun k => ?_)
          rcases hinv k with h | h
          · left; rw [(markH_fields st.1 [i] k).1]; exact h
          · right; rw [(markH_fields st.1 [i] k).1]; exact h
        · have hstep : bridgeCYStep cfg check check scratchGPR s1 s2 st i = st := by
            simp only [bridgeCYStep]
            rw [if_neg hskip,
              handleCycling_nolink cfg check check st.1 i scratchGPR s1 s2 hp]
            simp
          rw [hstep]; exact ih st hinv

/-- When every node has its incoming and outgoing liveness flags equal (the
identity exit), no node is the end of a non-cycling chain, so the chain pass
does nothing at all. -/
theorem ncPass_id (cfg : RegConfig) (check : SpeculationCheck)
    (entry : EntryLocation) (regs0 : Nat → SReg) (s1 s2 : Option Nat)
    (h : ∀ i, (regs0 i).hasFrom = (regs0 i).hasTo) :
    bridgeNonCyclingPass cfg check entry regs0 s1 s2 = ⟨regs0, s1, s2, []⟩ := by
  unfold bridgeNonCyclingPass
  apply foldl_fix
  intro i _
  have hend : (regs0 i).isEndOfNonCyclingPermutation = false := by
    unfold SReg.isEndOfNonCyclingPermutation
    rw [← h i]
    cases (regs0 i).hasFrom <;> rfl
  simp [bridgeNCStep, hend]

/-- On an identity exit every value an entry register expects unspilled is
already unspilled in the same register, so the FPR fill pass emits nothing. -/
theorem fprFill_nil (cfg : RegConfig) (g : Nat → NodeM) (check : SpeculationCheck)
    (cm : NRMap)
    (hfind : ∀ i, i < cfg.numFPR → ∀ n, (check.fprInfo i).nodeIndex = some n →
      nrFind cm n = some (.fprReg i)) :
    bridgeFprFillPass cfg g check check cm = [] := by
  unfold bridgeFprFillPass
  apply foldl_fix
  intro i hi
  have hi' := List.mem_range.mp hi
  cases hn : (check.fprInfo i).nodeIndex with
  | none => simp [fprFillStep, hn]
  | some n =>
      have hf := hfind i hi' n hn
      cases hsp : (check.fprInfo i).isSpilled with
      | true => simp [fprFillStep, hn, hsp]
      | false => simp [fprFillStep, hn, hf, grFindInfo, hsp]

/-- The GPR analogue: the fill pass of an identity exit emits nothing. -/
theorem gprFill_nil (cfg : RegConfig) (g : Nat → NodeM) (check : SpeculationCheck)
    (cm : NRMap)
    (hfind : ∀ i, i < cfg.numGPR → ∀ n, (check.gprInfo i).nodeIndex = some n →
      nrFind cm n = some (.gprReg i)) :
    bridgeGprFillPass cfg g check check cm = [] := by
  unfold bridgeGprFillPass
  apply foldl_fix
  intro i hi
  have hi' := List.mem_range.mp hi
  cases hn : (check.gprInfo i).nodeIndex with
  | none => simp [gprFillStep, hn]
  | some n =>
      have hf := hfind i hi' n hn
      cases hsp : (check.gprInfo i).isSpilled with
      | true => simp [gprFillStep, hn, hsp]
      | false => simp [gprFillStep, hn, hf, grFindInfo, hsp]

theorem bridgeFallback_restore_iff (x : Option Nat) :
    (if (bridgeFallback x).2 = true then [Instr.moveImm TagMaskVal tagMaskRegId]
     else ([] : List Instr)) =
    (if x = none then [Instr.moveImm TagMaskVal tagMaskRegId]
     else ([] : List Instr)) := by
  cases x <;> rfl

/-- C9: on an identity bridging exit — entry snapshot equal to the exit
snapshot, the snapshot satisfying invariant 1 — the emitted code is exactly
the recovery pre-pass, then (only when scratch discovery, including the spill
pass's reclassification, finds no GPR) the tag-mask restoration move, then
the jump to the entry: no spill, shuffle or fill operations at all. -/
theorem c9_amended (cfg : RegConfig) (g : Nat → NodeM) (check : SpeculationCheck)
    (recovery : Option SpecRecovery) (hu : nodesUniqueB cfg check = true) :
    jumpFromSpeculativeToNonSpeculative cfg g check check recovery =
      bridgePrePass check recovery ++
      (if bridgeScratchGPRFound cfg g check check = none then
         [Instr.moveImm TagMaskVal tagMaskRegId]
       else []) ++
      [Instr.jumpEntry] := by
  obtain ⟨hcm, hem⟩ := snapshotMap_maps cfg check
  have hfg : ∀ i, i < cfg.numGPR → ∀ n, (check.gprInfo i).nodeIndex = some n →
      nrFind (bridgeDiscovery cfg check check).entryMap n = some (.gprReg i) := by
    intro i hi n hn
    rw [hem]
    exact nrFind_snapshot_gpr cfg check hu hi hn
  have hff : ∀ i, i < cfg.numFPR → ∀ n, (check.fprInfo i).nodeIndex = some n →
      nrFind (bridgeDiscovery cfg check check).entryMap n = some (.fprReg i) := by
    intro i hi n hn
    rw [hem]
    exact nrFind_snapshot_fpr cfg check hu hi hn
  have hfgC : ∀ i, i < cfg.numGPR → ∀ n, (check.gprInfo i).nodeIndex = some n →
      nrFind (bridgeDiscovery cfg check check).checkMap n = some (.gprReg i) := by
    intro i hi n hn
    rw [hcm]
    exact nrFind_snapshot_gpr cfg check hu hi hn
  have hffC : ∀ i, i < cfg.numFPR → ∀ n, (check.fprInfo i).nodeIndex = some n →
      nrFind (bridgeDiscovery cfg check check).checkMap n = some (.fprReg i) := by
    intro i hi n hn
    rw [hcm]
    exact nrFind_snapshot_fpr cfg check hu hi hn
  simp only [jumpFromSpeculativeToNonSpeculative, bridgeOpsBeforeRestore,
    bridgeScratchGPRFound]
  set d := bridgeDiscovery cfg check check with hd
  set gp := bridgeGprSpillPass cfg g check check d.entryMap
    ⟨initSRegs cfg, d.scratchGPR, []⟩ with hgp
  obtain ⟨hgpS, hgpO, hgpR⟩ : gp.scratchGPR = d.scratchGPR ∧ gp.ops = [] ∧
      ∀ k, gp.regs k =
        if k ∈ List.range cfg.numGPR ∧
            ((check.gprInfo k).nodeIndex).isSome = true then
          { initSRegs cfg k with previous := some k, hasFrom := true, hasTo := true }
        else initSRegs cfg k := by
    rw [hgp]
    exact gprSpill_id cfg g check d.entryMap hfg (List.range cfg.numGPR)
      (fun i hi => List.mem_range.mp hi) ⟨initSRegs cfg, d.scratchGPR, []⟩
  set fp := bridgeFprSpillPass cfg g check check d.entryMap
    (bridgeFallback gp.scratchGPR).1 ⟨gp.regs, d.scratchFPR1, d.scratchFPR2, []⟩
    with hfp
  obtain ⟨hfpS1, hfpS2, hfpO, hfpR⟩ : fp.scratchFPR1 = d.scratchFPR1 ∧
      fp.scratchFPR2 = d.scratchFPR2 ∧ fp.ops = [] ∧
      ∀ k, fp.regs k =
        if k ∈ (List.range cfg.numFPR).map (fun j => cfg.numGPR + j) ∧
            ((check.fprInfo (k - cfg.numGPR)).nodeIndex).isSome = true then
          { gp.regs k with previous := some k, hasFrom := true, hasTo := true }
        else gp.regs k := by
    rw [hfp]
    exact fprSpill_id cfg g check d.entryMap (bridgeFallback gp.scratchGPR).1 hff
      (List.range cfg.numFPR) (fun i hi => List.mem_range.mp hi)
      ⟨gp.regs, d.scratchFPR1, d.scratchFPR2, []⟩
  have hprev : ∀ k, (fp.regs k).previous = some k ∨ (fp.regs k).previous = none := by
    intro k
    rw [hfpR k]
    split
    · left; rfl
    · rw [hgpR k]
      split
      · left; rfl
      · right; rfl
  have hfromto : ∀ k, (fp.regs k).hasFrom = (fp.regs k).hasTo := by
    intro k
    rw [hfpR k]
    split
    · rfl
    · rw [hgpR k]
      split
      · rfl
      · rfl
  have hnc : bridgeNonCyclingPass cfg check check fp.regs fp.scratchFPR1
      fp.scratchFPR2 = ⟨fp.regs, fp.scratchFPR1, fp.scratchFPR2, []⟩ :=
    ncPass_id cfg check check fp.regs fp.scratchFPR1 fp.scratchFPR2 hfromto
  have hcy : (bridgeCyclingPass cfg check check fp.regs
      (bridgeFallback gp.scratchGPR).1 fp.scratchFPR1 fp.scratchFPR2).2 = [] := by
    unfold bridgeCyclingPass
    exact cyPass_ops cfg check (bridgeFallback gp.scratchGPR).1 fp.scratchFPR1
      fp.scratchFPR2 (List.range (cfg.numGPR + cfg.numFPR)) (fp.regs, []) hprev
  have hfill1 : bridgeFprFillPass cfg g check check d.checkMap = [] :=
    fprFill_nil cfg g check d.checkMap hffC
  have hfill2 : bridgeGprFillPass cfg g check check d.checkMap = [] :=
    gprFill_nil cfg g check d.checkMap hfgC
  rw [hgpO, hfpO, hnc]
  simp only []
  rw [hcy, hfill1, hfill2]
  simp only [List.append_nil]
  rw [bridgeFallback_restore_iff]

/-- Witness for `c9_amended`: the concrete fully live 1-GPR, 1-FPR identity
exit, on which scratch discovery finds nothing and the emitted code is the
tag-mask restoration followed by the jump. -/
theorem c9_amended_witness :
    nodesUniqueB cfgC9 checkC9 = true ∧
    jumpFromSpeculativeToNonSpeculative cfgC9 gC9 checkC9 checkC9 none =
      bridgePrePass checkC9 none ++
      (if bridgeScratchGPRFound cfgC9 gC9 checkC9 checkC9 = none then
         [Instr.moveImm TagMaskVal tagMaskRegId]
       else []) ++
      [Instr.jumpEntry] :=
  ⟨by decide, c9_amended cfgC9 gC9 checkC9 none (by decide)⟩

end JSCDFG
